import Mathlib

/-!
Verification of the EchoDoc document-ingestion pipeline.

This file shallowly embeds the parts of the EchoDoc source that the spec's
testable claims are about:

* `app/services/document_parser.py` — `DocumentParser.chunk_text`;
* `app/services/synthetic_data.py` — `SyntheticDataGenerator.generate_synthetic_jsonl`
  and `generate_fallback_jsonl`;
* `app/services/rag.py` — the retrieval step of `RagService.rag_query` /
  `rag_query_by_job`;
* `app/services/upload.py` — the `UploadService` orchestrator state machine;
* `app/services/finetune.py` — `FinetuneService.check_finetune_status`.

Text is modelled as `List Char` (Python `str`), binary data as `List Nat`
(Python `bytes`).  External collaborators (the LLM/embedding provider, the
FAISS library, the blob store backend) are modelled as explicit oracle
parameters; the database session is modelled as explicit state with separate
committed and pending parts, mirroring SQLAlchemy's `add`/`commit`/`rollback`.
-/

/-! ### Python string primitives -/

/-- Whitespace test matching Python `str.split()` / `str.strip()` on the ASCII
range (space, tab, newline, carriage return, vertical tab, form feed).  Python
additionally treats a few rare Unicode separators as whitespace; no modelled
code path produces those. -/
def pyIsSpace (c : Char) : Bool :=
  c = ' ' || c = '\t' || c = '\n' || c = '\r' || c = '\x0b' || c = '\x0c'

/-- Longest whitespace-free head of a character list (the continuation of the
word currently being scanned by `str.split()`). -/
def takeWord : List Char → List Char
  | [] => []
  | c :: cs => if pyIsSpace c then [] else c :: takeWord cs

/-- Remainder of the character list after the word currently being scanned. -/
def dropWord : List Char → List Char
  | [] => []
  | c :: cs => if pyIsSpace c then c :: cs else dropWord cs

theorem dropWord_length_le (cs : List Char) : (dropWord cs).length ≤ cs.length := by
  induction cs with
  | nil => simp [dropWord]
  | cons c cs ih =>
    simp only [dropWord]
    split
    · simp
    · exact Nat.le_succ_of_le ih

/-- Fuel-indexed worker for `str.split()`; the fuel (initially the input
length, always sufficient) only forces structural recursion. -/
def splitWsAux : Nat → List Char → List (List Char)
  | 0, _ => []
  | _ + 1, [] => []
  | fuel + 1, c :: cs =>
    if pyIsSpace c then splitWsAux fuel cs
    else (c :: takeWord cs) :: splitWsAux fuel (dropWord cs)

/-- Python `str.split()` with no separator argument: split on runs of
whitespace, dropping empty pieces. -/
def splitWs (cs : List Char) : List (List Char) := splitWsAux cs.length cs

theorem splitWsAux_stable :
    ∀ (f1 : Nat) (cs : List Char), cs.length ≤ f1 → ∀ f2, cs.length ≤ f2 →
      splitWsAux f1 cs = splitWsAux f2 cs := by
  intro f1
  induction f1 with
  | zero =>
    intro cs h f2 h2
    have : cs = [] := List.eq_nil_of_length_eq_zero (Nat.le_zero.mp h)
    subst this
    cases f2 <;> rfl
  | succ f1 ih =>
    intro cs h f2 h2
    cases cs with
    | nil => cases f2 <;> rfl
    | cons c cs =>
      cases f2 with
      | zero => simp at h2
      | succ f2 =>
        simp only [List.length_cons] at h h2
        simp only [splitWsAux]
        by_cases hc : pyIsSpace c
        · simp only [hc, if_pos]
          exact ih cs (by omega) f2 (by omega)
        · simp only [hc, Bool.false_eq_true, if_false]
          have hd := dropWord_length_le cs
          rw [ih (dropWord cs) (by omega) f2 (by omega)]

theorem splitWs_nil : splitWs [] = [] := rfl

theorem splitWs_cons (c : Char) (cs : List Char) :
    splitWs (c :: cs) =
      if pyIsSpace c then splitWs cs
      else (c :: takeWord cs) :: splitWs (dropWord cs) := by
  show splitWsAux (cs.length + 1) (c :: cs) = _
  simp only [splitWsAux]
  by_cases hc : pyIsSpace c
  · simp only [hc, if_pos]
    rfl
  · simp only [hc, Bool.false_eq_true, if_false]
    rw [splitWsAux_stable cs.length (dropWord cs) (dropWord_length_le cs)
      (dropWord cs).length (le_refl _)]
    rfl

/-- Induction principle following the recursion structure of `str.split()`. -/
theorem splitWs_induction (motive : List Char → Prop)
    (case1 : motive [])
    (case2 : ∀ (c : Char) (cs : List Char), pyIsSpace c = true → motive cs → motive (c :: cs))
    (case3 : ∀ (c : Char) (cs : List Char), pyIsSpace c = false →
      motive (dropWord cs) → motive (c :: cs)) :
    ∀ cs, motive cs := by
  have main : ∀ (k : Nat) (cs : List Char), cs.length ≤ k → motive cs := by
    intro k
    induction k with
    | zero =>
      intro cs h
      rw [List.eq_nil_of_length_eq_zero (Nat.le_zero.mp h)]
      exact case1
    | succ k ih =>
      intro cs h
      cases cs with
      | nil => exact case1
      | cons c cs =>
        simp only [List.length_cons] at h
        by_cases hc : pyIsSpace c
        · exact case2 c cs hc (ih cs (by omega))
        · have hd := dropWord_length_le cs
          exact case3 c cs (by simpa using hc) (ih (dropWord cs) (by omega))
  exact fun cs => main cs.length cs (le_refl _)

/-- Python `" ".join(words)` for a list of words, each a character list. -/
def joinSpace : List (List Char) → List Char
  | [] => []
  | [w] => w
  | w :: v :: ws => w ++ ' ' :: joinSpace (v :: ws)

/-- Fuel-indexed worker for the grouping comprehension; the fuel (initially
the input length, always sufficient for `n > 0`) only forces structural
recursion. -/
def chunksOfAux {α : Type} (n : Nat) : Nat → List α → List (List α)
  | 0, _ => []
  | _ + 1, [] => []
  | fuel + 1, x :: xs =>
    if n = 0 then []
    else (x :: xs).take n :: chunksOfAux n fuel ((x :: xs).drop n)

/-- Consecutive groups of `n` elements: `[l[i:i+n] for i in range(0, len(l), n)]`.
Python's `range` raises `ValueError` for step 0; the `n = 0` case is
unreachable in every modelled caller and returns `[]` here. -/
def chunksOf {α : Type} (n : Nat) (l : List α) : List (List α) := chunksOfAux n l.length l

theorem chunksOfAux_stable {α : Type} (n : Nat) :
    ∀ (f1 : Nat) (l : List α), l.length ≤ f1 → ∀ f2, l.length ≤ f2 →
      chunksOfAux n f1 l = chunksOfAux n f2 l := by
  intro f1
  induction f1 with
  | zero =>
    intro l h f2 h2
    have : l = [] := List.eq_nil_of_length_eq_zero (Nat.le_zero.mp h)
    subst this
    cases f2 <;> rfl
  | succ f1 ih =>
    intro l h f2 h2
    cases l with
    | nil => cases f2 <;> rfl
    | cons x xs =>
      cases f2 with
      | zero => simp at h2
      | succ f2 =>
        simp only [List.length_cons] at h h2
        simp only [chunksOfAux]
        by_cases h0 : n = 0
        · simp [h0]
        · simp only [h0, if_false]
          have hd : ((x :: xs).drop n).length ≤ xs.length := by
            simp only [List.length_drop, List.length_cons]
            omega
          rw [ih ((x :: xs).drop n) (by omega) f2 (by omega)]

theorem chunksOf_nil {α : Type} (n : Nat) : chunksOf n ([] : List α) = [] := rfl

theorem chunksOf_cons {α : Type} (n : Nat) (x : α) (xs : List α) :
    chunksOf n (x :: xs) =
      if n = 0 then []
      else (x :: xs).take n :: chunksOf n ((x :: xs).drop n) := by
  show chunksOfAux n (xs.length + 1) (x :: xs) = _
  simp only [chunksOfAux]
  by_cases h0 : n = 0
  · simp [h0]
  · simp only [h0, if_false]
    have hd : ((x :: xs).drop n).length ≤ xs.length := by
      simp only [List.length_drop, List.length_cons]
      omega
    rw [chunksOfAux_stable n xs.length ((x :: xs).drop n) hd
      ((x :: xs).drop n).length (le_refl _)]
    rfl

/-- Induction principle following the recursion structure of the grouping
comprehension. -/
theorem chunksOf_induction {α : Type} (n : Nat) (motive : List α → Prop)
    (case1 : motive [])
    (case2 : ∀ (x : α) (xs : List α), n = 0 → motive (x :: xs))
    (case3 : ∀ (x : α) (xs : List α), ¬n = 0 →
      motive ((x :: xs).drop n) → motive (x :: xs)) :
    ∀ l : List α, motive l := by
  have main : ∀ (k : Nat) (l : List α), l.length ≤ k → motive l := by
    intro k
    induction k with
    | zero =>
      intro l h
      rw [List.eq_nil_of_length_eq_zero (Nat.le_zero.mp h)]
      exact case1
    | succ k ih =>
      intro l h
      cases l with
      | nil => exact case1
      | cons x xs =>
        simp only [List.length_cons] at h
        by_cases h0 : n = 0
        · exact case2 x xs h0
        · refine case3 x xs h0 (ih _ ?_)
          simp only [List.length_drop, List.length_cons]
          omega
  exact fun l => main l.length l (le_refl _)

/-- Embedding of `DocumentParser.chunk_text` (document_parser.py, lines
161–178): `words = text.split()`, then consecutive groups of `chunk_size`
words re-joined with single spaces. -/
def chunk_text (text : List Char) (chunk_size : Nat) : List (List Char) :=
  (chunksOf chunk_size (splitWs text)).map joinSpace

/-! ### Word-level facts about `splitWs`, `joinSpace`, `chunksOf` -/

theorem mem_takeWord_nonspace (cs : List Char) :
    ∀ c ∈ takeWord cs, pyIsSpace c = false := by
  induction cs with
  | nil => simp [takeWord]
  | cons a cs ih =>
    simp only [takeWord]
    split
    · simp
    · intro c hc
      rcases List.mem_cons.mp hc with h | h
      · subst h
        rename_i hns
        simpa using hns
      · exact ih c h

theorem mem_splitWs_spec (cs : List Char) :
    ∀ w ∈ splitWs cs, w ≠ [] ∧ ∀ c ∈ w, pyIsSpace c = false := by
  induction cs using splitWs_induction with
  | case1 => simp [splitWs_nil]
  | case2 c cs hc ih =>
    rw [splitWs_cons]
    simpa [hc] using ih
  | case3 c cs hc ih =>
    rw [splitWs_cons]
    simp only [hc, Bool.false_eq_true, if_false]
    intro w hw
    rcases List.mem_cons.mp hw with h | h
    · subst h
      refine ⟨by simp, ?_⟩
      intro d hd
      rcases List.mem_cons.mp hd with h | h
      · subst h
        exact hc
      · exact mem_takeWord_nonspace cs d h
    · exact ih w h

theorem splitWs_all_space (cs : List Char) (h : ∀ c ∈ cs, pyIsSpace c = true) :
    splitWs cs = [] := by
  induction cs with
  | nil => simp [splitWs_nil]
  | cons c cs ih =>
    have hc : pyIsSpace c = true := h c (by simp)
    rw [splitWs_cons]
    simp only [hc, if_true]
    exact ih (fun d hd => h d (by simp [hd]))

theorem takeWord_append_nonspace (w cs : List Char)
    (h : ∀ c ∈ w, pyIsSpace c = false) :
    takeWord (w ++ cs) = w ++ takeWord cs := by
  induction w with
  | nil => simp
  | cons a w ih =>
    have ha : pyIsSpace a = false := h a (by simp)
    simp only [List.cons_append, takeWord, ha]
    simp only [Bool.false_eq_true, if_false, List.cons.injEq, true_and]
    exact ih (fun c hc => h c (by simp [hc]))

theorem dropWord_append_nonspace (w cs : List Char)
    (h : ∀ c ∈ w, pyIsSpace c = false) :
    dropWord (w ++ cs) = dropWord cs := by
  induction w with
  | nil => simp
  | cons a w ih =>
    have ha : pyIsSpace a = false := h a (by simp)
    simp only [List.cons_append, dropWord, ha]
    simp only [Bool.false_eq_true, if_false]
    exact ih (fun c hc => h c (by simp [hc]))

theorem splitWs_word_append (w cs : List Char) (hw : w ≠ [])
    (h : ∀ c ∈ w, pyIsSpace c = false) :
    splitWs (w ++ cs) = (w ++ takeWord cs) :: splitWs (dropWord cs) := by
  cases w with
  | nil => exact absurd rfl hw
  | cons a w =>
    have ha : pyIsSpace a = false := h a (by simp)
    have htail : ∀ c ∈ w, pyIsSpace c = false := fun c hc => h c (by simp [hc])
    simp only [List.cons_append, splitWs_cons, ha, Bool.false_eq_true, if_false,
      takeWord_append_nonspace w cs htail, dropWord_append_nonspace w cs htail]

theorem splitWs_joinSpace (ws : List (List Char))
    (h : ∀ w ∈ ws, w ≠ [] ∧ ∀ c ∈ w, pyIsSpace c = false) :
    splitWs (joinSpace ws) = ws := by
  induction ws with
  | nil => simp [joinSpace, splitWs_nil]
  | cons w ws ih =>
    cases ws with
    | nil =>
      obtain ⟨hne, hns⟩ := h w (by simp)
      have := splitWs_word_append w [] hne hns
      simpa [joinSpace, takeWord, dropWord, splitWs_nil] using this
    | cons v vs =>
      obtain ⟨hne, hns⟩ := h w (by simp)
      have hstep := splitWs_word_append w (' ' :: joinSpace (v :: vs)) hne hns
      have hsp : pyIsSpace ' ' = true := by decide
      rw [joinSpace, hstep]
      simp only [takeWord, hsp, if_pos, dropWord, List.append_nil]
      rw [show splitWs (' ' :: joinSpace (v :: vs)) = splitWs (joinSpace (v :: vs)) by
        rw [splitWs_cons]; simp [hsp]]
      rw [ih (fun u hu => h u (by simp [hu]))]

theorem chunksOf_flatten {α : Type} (n : Nat) (hn : 0 < n) (l : List α) :
    (chunksOf n l).flatten = l := by
  induction l using chunksOf_induction n with
  | case1 => simp [chunksOf_nil]
  | case2 x xs h0 =>
    omega
  | case3 x xs h0 ih =>
    simp only [chunksOf_cons, h0, if_false, List.flatten_cons, ih,
      List.take_append_drop]

theorem mem_chunksOf_ne_nil {α : Type} (n : Nat) (hn : 0 < n) (l : List α) :
    ∀ g ∈ chunksOf n l, g ≠ [] := by
  induction l using chunksOf_induction n with
  | case1 => simp [chunksOf_nil]
  | case2 x xs h0 => omega
  | case3 x xs h0 ih =>
    simp only [chunksOf_cons, h0, if_false]
    intro g hg
    rcases List.mem_cons.mp hg with h | h
    · subst h
      cases n with
      | zero => omega
      | succ m => simp [List.take]
    · exact ih g h

theorem mem_chunksOf_subset {α : Type} (n : Nat) (l : List α) :
    ∀ g ∈ chunksOf n l, ∀ x ∈ g, x ∈ l := by
  induction l using chunksOf_induction n with
  | case1 => simp [chunksOf_nil]
  | case2 x xs h0 => simp [chunksOf_cons, h0]
  | case3 x xs h0 ih =>
    simp only [chunksOf_cons, h0, if_false]
    intro g hg y hy
    rcases List.mem_cons.mp hg with h | h
    · subst h
      exact List.mem_of_mem_take hy
    · exact List.mem_of_mem_drop (ih g h y hy)

theorem mem_dropLast_mem {α : Type} {l : List α} {x : α} (h : x ∈ l.dropLast) :
    x ∈ l := by
  induction l with
  | nil => simp at h
  | cons a l ih =>
    cases l with
    | nil => simp at h
    | cons b l =>
      rw [List.dropLast_cons₂] at h
      rcases List.mem_cons.mp h with h | h
      · simp [h]
      · exact List.mem_cons_of_mem _ (ih h)

theorem chunksOf_dropLast_length {α : Type} (n : Nat) (hn : 0 < n) (l : List α) :
    ∀ g ∈ (chunksOf n l).dropLast, g.length = n := by
  induction l using chunksOf_induction n with
  | case1 => simp [chunksOf_nil]
  | case2 x xs h0 => omega
  | case3 x xs h0 ih =>
    simp only [chunksOf_cons, h0, if_false]
    intro g hg
    by_cases hrest : chunksOf n ((x :: xs).drop n) = []
    · rw [hrest] at hg
      simp at hg
    · have : ((x :: xs).take n :: chunksOf n ((x :: xs).drop n)).dropLast
          = (x :: xs).take n :: (chunksOf n ((x :: xs).drop n)).dropLast := by
        cases hc : chunksOf n ((x :: xs).drop n) with
        | nil => exact absurd hc hrest
        | cons a t => simp [List.dropLast_cons₂]
      rw [this] at hg
      rcases List.mem_cons.mp hg with h | h
      · subst h
        have hlen : n < (x :: xs).length := by
          by_contra hle
          push_neg at hle
          have : (x :: xs).drop n = [] := List.drop_eq_nil_of_le hle
          rw [this] at hrest
          simp [chunksOf_nil] at hrest
        rw [List.length_take]
        omega
      · exact ih g h

theorem chunksOf_getLast?_length {α : Type} (n : Nat) (hn : 0 < n) (l : List α) :
    ∀ g, (chunksOf n l).getLast? = some g → 1 ≤ g.length ∧ g.length ≤ n := by
  induction l using chunksOf_induction n with
  | case1 => simp [chunksOf_nil]
  | case2 x xs h0 => omega
  | case3 x xs h0 ih =>
    simp only [chunksOf_cons, h0, if_false]
    intro g hg
    by_cases hrest : chunksOf n ((x :: xs).drop n) = []
    · rw [hrest] at hg
      simp only [List.getLast?_singleton, Option.some.injEq] at hg
      subst hg
      constructor
      · have : (x :: xs).take n ≠ [] := by
          cases n with
          | zero => omega
          | succ m => simp [List.take]
        have := List.length_pos.mpr this
        omega
      · simp [List.length_take]
    · have : ((x :: xs).take n :: chunksOf n ((x :: xs).drop n)).getLast?
          = (chunksOf n ((x :: xs).drop n)).getLast? := by
        cases hc : chunksOf n ((x :: xs).drop n) with
        | nil => exact absurd hc hrest
        | cons a t => simp [List.getLast?_cons_cons]
      rw [this] at hg
      exact ih g hg

theorem joinSpace_append (a b : List (List Char)) (ha : a ≠ []) (hb : b ≠ []) :
    joinSpace (a ++ b) = joinSpace a ++ ' ' :: joinSpace b := by
  induction a with
  | nil => exact absurd rfl ha
  | cons w a ih =>
    cases a with
    | nil =>
      cases b with
      | nil => exact absurd rfl hb
      | cons v vs => simp [joinSpace]
    | cons u a' =>
      have ihr := ih (by simp)
      simp only [List.cons_append] at ihr ⊢
      simp only [joinSpace]
      rw [ihr]
      simp [List.append_assoc]

theorem flatten_ne_nil_of_head {α : Type} (g : List α) (gs : List (List α))
    (hg : g ≠ []) : (g :: gs).flatten ≠ [] := by
  simp only [List.flatten_cons]
  intro h
  exact hg (List.append_eq_nil.mp h).1

theorem joinSpace_map_flatten (gs : List (List (List Char)))
    (h : ∀ g ∈ gs, g ≠ []) :
    joinSpace (gs.map joinSpace) = joinSpace gs.flatten := by
  induction gs with
  | nil => simp [joinSpace]
  | cons g gs ih =>
    cases gs with
    | nil => simp [joinSpace]
    | cons g' gs' =>
      have hg : g ≠ [] := h g (by simp)
      have hg' : g' ≠ [] := h g' (by simp)
      have hflat : (g' :: gs').flatten ≠ [] := flatten_ne_nil_of_head g' gs' hg'
      have ihr := ih (fun u hu => h u (by simp [hu]))
      have happ := joinSpace_append g ((g' :: gs').flatten) hg hflat
      calc joinSpace (List.map joinSpace (g :: g' :: gs'))
          = joinSpace g ++ ' ' :: joinSpace (List.map joinSpace (g' :: gs')) := by
            simp only [List.map_cons, joinSpace]
        _ = joinSpace g ++ ' ' :: joinSpace ((g' :: gs').flatten) := by rw [ihr]
        _ = joinSpace ((g :: g' :: gs').flatten) := by
            rw [show (g :: g' :: gs').flatten = g ++ (g' :: gs').flatten from rfl, happ]

/-! ### Claims C8 and C9: chunking bounds and reconstruction -/

/-- C8: for every text and every `chunk_size = n > 0`, every chunk of
`chunk_text text n` except possibly the last contains exactly `n` words, the
last chunk contains between 1 and `n` words, and text that is empty or all
whitespace yields no chunks.  (document_parser.py lines 161–178.) -/
theorem chunk_text_size_bound (text : List Char) (n : Nat) (hn : 0 < n) :
    (∀ g ∈ (chunk_text text n).dropLast, (splitWs g).length = n) ∧
    (∀ g, (chunk_text text n).getLast? = some g →
      1 ≤ (splitWs g).length ∧ (splitWs g).length ≤ n) ∧
    ((∀ c ∈ text, pyIsSpace c = true) → chunk_text text n = []) := by
  have hwords : ∀ g ∈ chunksOf n (splitWs text),
      splitWs (joinSpace g) = g := by
    intro g hg
    refine splitWs_joinSpace g ?_
    intro w hw
    exact mem_splitWs_spec text w (mem_chunksOf_subset n (splitWs text) g hg w hw)
  refine ⟨?_, ?_, ?_⟩
  · intro g hg
    rw [chunk_text, ← List.map_dropLast] at hg
    rcases List.mem_map.mp hg with ⟨u, hu, rfl⟩
    have hmem : u ∈ chunksOf n (splitWs text) := mem_dropLast_mem hu
    rw [hwords u hmem]
    exact chunksOf_dropLast_length n hn (splitWs text) u hu
  · intro g hg
    rw [chunk_text, List.getLast?_map] at hg
    rcases Option.map_eq_some'.mp hg with ⟨u, hu, rfl⟩
    have hmem : u ∈ chunksOf n (splitWs text) :=
      List.mem_of_getLast?_eq_some hu
    rw [hwords u hmem]
    exact chunksOf_getLast?_length n hn (splitWs text) u hu
  · intro hall
    rw [chunk_text, splitWs_all_space text hall]
    simp [chunksOf_nil]

/-- Witness for `chunk_text_size_bound` at a concrete text and chunk size. -/
theorem chunk_text_size_bound_witness :
    (∀ g ∈ (chunk_text "one two three".data 2).dropLast, (splitWs g).length = 2) ∧
    (∀ g, (chunk_text "one two three".data 2).getLast? = some g →
      1 ≤ (splitWs g).length ∧ (splitWs g).length ≤ 2) ∧
    ((∀ c ∈ "one two three".data, pyIsSpace c = true) →
      chunk_text "one two three".data 2 = []) :=
  chunk_text_size_bound "one two three".data 2 (by decide)

/-- C9: for every text and every `n > 0`, joining the chunks of
`chunk_text text n` with single spaces equals the words of the text joined by
single spaces — the whitespace-normalized token sequence is reconstructed. -/
theorem chunk_text_join_reconstructs (text : List Char) (n : Nat) (hn : 0 < n) :
    joinSpace (chunk_text text n) = joinSpace (splitWs text) := by
  rw [chunk_text]
  rw [joinSpace_map_flatten (chunksOf n (splitWs text))
    (mem_chunksOf_ne_nil n hn (splitWs text))]
  rw [chunksOf_flatten n hn (splitWs text)]

/-- Witness for `chunk_text_join_reconstructs` at a concrete text. -/
theorem chunk_text_join_reconstructs_witness :
    joinSpace (chunk_text "alpha  beta\n gamma delta".data 3)
      = joinSpace (splitWs "alpha  beta\n gamma delta".data) :=
  chunk_text_join_reconstructs "alpha  beta\n gamma delta".data 3 (by decide)

/-! ### JSON values and Python `json.dumps` / `json.loads` -/

/-- JSON value tree.  Numbers keep their source lexeme: Python's `json.loads`
converts them to `int`/`float` and re-serialization can normalize the literal
(e.g. `1e2` becomes `100.0`); no settled claim exercises that path, and the
divergence is confined to `Json.num`. -/
inductive Json : Type where
  | null : Json
  | bool : Bool → Json
  | num : String → Json
  | str : String → Json
  | arr : List Json → Json
  | obj : List (String × Json) → Json

/-- Lowercase hex digit, as produced by Python's `json` encoder
(48 is the code of `0`, 87 is the code of `a` minus 10). -/
def hexDigit (n : Nat) : Char :=
  Char.ofNat (if n < 10 then 48 + n else 87 + n)

/-- Four-digit lowercase hex rendering of `n % 0x10000`. -/
def hex4 (n : Nat) : String :=
  String.mk [hexDigit (n / 4096 % 16), hexDigit (n / 256 % 16),
    hexDigit (n / 16 % 16), hexDigit (n % 16)]

/-- Escape of one character under `json.dumps` defaults (`ensure_ascii=True`):
printable ASCII except `"` and `\` is literal, the short escapes are used
where they exist, everything else becomes `\uXXXX` (with surrogate pairs
above the BMP). -/
def escapeChar (c : Char) : String :=
  if c = '"' then "\\\""
  else if c = '\\' then "\\\\"
  else if c = '\n' then "\\n"
  else if c = '\t' then "\\t"
  else if c = '\r' then "\\r"
  else if c = '\x08' then "\\b"
  else if c = '\x0c' then "\\f"
  else if c.toNat < 0x20 then "\\u" ++ hex4 c.toNat
  else if c.toNat < 0x7f then String.mk [c]
  else if c.toNat < 0x10000 then "\\u" ++ hex4 c.toNat
  else
    "\\u" ++ hex4 (0xd800 + (c.toNat - 0x10000) / 0x400)
      ++ "\\u" ++ hex4 (0xdc00 + (c.toNat - 0x10000) % 0x400)

/-- Serialization of a string literal under `json.dumps`. -/
def dumpString (s : String) : String :=
  "\"" ++ String.join (s.data.map escapeChar) ++ "\""

mutual

/-- Embedding of `json.dumps` with its default separators `", "` and `": "`. -/
def dumps : Json → String
  | .null => "null"
  | .bool b => if b then "true" else "false"
  | .num s => s
  | .str s => dumpString s
  | .arr xs => "[" ++ dumpsArr xs ++ "]"
  | .obj kvs => "\x7b" ++ dumpsObj kvs ++ "\x7d"

/-- Comma-joined serialization of array elements. -/
def dumpsArr : List Json → String
  | [] => ""
  | [x] => dumps x
  | x :: y :: rest => dumps x ++ ", " ++ dumpsArr (y :: rest)

/-- Comma-joined serialization of object members. -/
def dumpsObj : List (String × Json) → String
  | [] => ""
  | [(k, v)] => dumpString k ++ ": " ++ dumps v
  | (k, v) :: p :: rest => dumpString k ++ ": " ++ dumps v ++ ", " ++ dumpsObj (p :: rest)

end

/-- A string is valid (canonical-form) JSON when it is the serialization of
some JSON value; `json.loads` succeeds on every such string. -/
def IsValidJson (s : String) : Prop := ∃ v : Json, dumps v = s

/-- Whitespace skipped between JSON tokens (`json.loads`). -/
def jsonWsChar (c : Char) : Bool :=
  c = ' ' || c = '\t' || c = '\n' || c = '\r'

/-- Skip inter-token whitespace. -/
def skipJsonWs (cs : List Char) : List Char := cs.dropWhile jsonWsChar

/-- Hex-digit test for `\uXXXX` escapes. -/
def isHexDigitChar (c : Char) : Bool :=
  ('0' ≤ c && c ≤ '9') || ('a' ≤ c && c ≤ 'f') || ('A' ≤ c && c ≤ 'F')

/-- Value of a hex digit. -/
def hexVal (c : Char) : Nat :=
  if '0' ≤ c && c ≤ '9' then c.toNat - '0'.toNat
  else if 'a' ≤ c && c ≤ 'f' then c.toNat - 'a'.toNat + 10
  else c.toNat - 'A'.toNat + 10

/-- Drop a literal from the head of the input, or fail. -/
def dropLit : List Char → List Char → Option (List Char)
  | [], cs => some cs
  | _ :: _, [] => none
  | l :: ls, c :: cs => if l = c then dropLit ls cs else none

/-- Lex a JSON number starting at `cs`:
`-? (0 | [1-9][0-9]*) (. [0-9]+)? ([eE] [+-]? [0-9]+)?`. -/
def lexJsonNumber (cs : List Char) : Option (List Char × List Char) :=
  let (sign, cs1) := match cs with
    | '-' :: rest => (['-'], rest)
    | _ => ([], cs)
  match cs1 with
  | [] => none
  | d :: _ =>
    if !d.isDigit then none
    else
      let intPart := if d = '0' then ['0'] else cs1.takeWhile Char.isDigit
      let cs2 := cs1.drop intPart.length
      let (fracPart, cs3) := match cs2 with
        | '.' :: rest =>
          let ds := rest.takeWhile Char.isDigit
          if ds = [] then ([], cs2) else ('.' :: ds, rest.drop ds.length)
        | _ => ([], cs2)
      if cs2 ≠ cs3 ∨ fracPart = [] then
        let (expPart, cs4) := match cs3 with
          | e :: rest =>
            if e = 'e' ∨ e = 'E' then
              let (es, rest2) := match rest with
                | s :: r2 => if s = '+' ∨ s = '-' then ([s], r2) else ([], rest)
                | [] => ([], rest)
              let ds := rest2.takeWhile Char.isDigit
              if ds = [] then ([], cs3) else (e :: (es ++ ds), rest2.drop ds.length)
            else ([], cs3)
          | [] => ([], cs3)
        some (sign ++ intPart ++ fracPart ++ expPart, cs4)
      else none

/-- Parse the body of a JSON string literal (the opening quote already
consumed), with escape handling.  Lone surrogates, which Python keeps as raw
code units, are mapped to U+FFFD since Lean characters are scalar values. -/
def parseJsonStringBody (fuel : Nat) (cs : List Char) : Option (List Char × List Char) :=
  match fuel, cs with
  | 0, _ => none
  | _, [] => none
  | f + 1, c :: rest =>
    if c = '"' then some ([], rest)
    else if c = '\\' then
      match rest with
      | [] => none
      | e :: rest2 =>
        if e = 'u' then
          match rest2 with
          | a :: b :: c2 :: d :: rest3 =>
            if isHexDigitChar a && isHexDigitChar b && isHexDigitChar c2 && isHexDigitChar d then
              let n := hexVal a * 4096 + hexVal b * 256 + hexVal c2 * 16 + hexVal d
              if 0xd800 ≤ n && n < 0xdc00 then
                match rest3 with
                | '\\' :: 'u' :: a2 :: b2 :: c3 :: d2 :: rest4 =>
                  if isHexDigitChar a2 && isHexDigitChar b2 && isHexDigitChar c3 && isHexDigitChar d2 then
                    let m := hexVal a2 * 4096 + hexVal b2 * 256 + hexVal c3 * 16 + hexVal d2
                    if 0xdc00 ≤ m && m < 0xe000 then
                      (parseJsonStringBody f rest4).map
                        (fun r => (Char.ofNat (0x10000 + (n - 0xd800) * 0x400 + (m - 0xdc00)) :: r.1, r.2))
                    else
                      (parseJsonStringBody f rest3).map (fun r => ('�' :: r.1, r.2))
                  else (parseJsonStringBody f rest3).map (fun r => ('�' :: r.1, r.2))
                | _ => (parseJsonStringBody f rest3).map (fun r => ('�' :: r.1, r.2))
              else if 0xdc00 ≤ n && n < 0xe000 then
                (parseJsonStringBody f rest3).map (fun r => ('�' :: r.1, r.2))
              else
                (parseJsonStringBody f rest3).map (fun r => (Char.ofNat n :: r.1, r.2))
            else none
          | _ => none
        else
          let esc : Option Char :=
            if e = '"' then some '"'
            else if e = '\\' then some '\\'
            else if e = '/' then some '/'
            else if e = 'b' then some '\x08'
            else if e = 'f' then some '\x0c'
            else if e = 'n' then some '\n'
            else if e = 'r' then some '\r'
            else if e = 't' then some '\t'
            else none
          match esc with
          | some ch => (parseJsonStringBody f rest2).map (fun r => (ch :: r.1, r.2))
          | none => none
    else if c.toNat < 0x20 then none
    else (parseJsonStringBody f rest).map (fun r => (c :: r.1, r.2))

mutual

/-- Parse one JSON value (model of the recursive descent in `json.loads`). -/
def parseJsonValue (fuel : Nat) (cs : List Char) : Option (Json × List Char) :=
  match fuel with
  | 0 => none
  | f + 1 =>
    match skipJsonWs cs with
    | [] => none
    | c :: rest =>
      if c = '"' then
        (parseJsonStringBody f rest).map (fun r => (Json.str (String.mk r.1), r.2))
      else if c = '[' then
        match skipJsonWs rest with
        | ']' :: rest2 => some (Json.arr [], rest2)
        | _ => (parseJsonElems f rest).map (fun r => (Json.arr r.1, r.2))
      else if c = '\x7b' then
        match skipJsonWs rest with
        | '\x7d' :: rest2 => some (Json.obj [], rest2)
        | _ => (parseJsonMembers f rest).map (fun r => (Json.obj r.1, r.2))
      else if c = 't' then
        (dropLit "rue".data rest).map (fun r => (Json.bool true, r))
      else if c = 'f' then
        (dropLit "alse".data rest).map (fun r => (Json.bool false, r))
      else if c = 'n' then
        (dropLit "ull".data rest).map (fun r => (Json.null, r))
      else
        (lexJsonNumber (c :: rest)).map (fun r => (Json.num (String.mk r.1), r.2))

/-- Parse one or more comma-separated array elements up to `]`. -/
def parseJsonElems (fuel : Nat) (cs : List Char) : Option (List Json × List Char) :=
  match fuel with
  | 0 => none
  | f + 1 =>
    match parseJsonValue f cs with
    | none => none
    | some (v, r) =>
      match skipJsonWs r with
      | ',' :: r2 => (parseJsonElems f r2).map (fun t => (v :: t.1, t.2))
      | ']' :: r2 => some ([v], r2)
      | _ => none

/-- Parse one or more comma-separated object members up to the closing brace. -/
def parseJsonMembers (fuel : Nat) (cs : List Char) : Option (List (String × Json) × List Char) :=
  match fuel with
  | 0 => none
  | f + 1 =>
    match skipJsonWs cs with
    | '"' :: r0 =>
      match parseJsonStringBody f r0 with
      | none => none
      | some (k, r1) =>
        match skipJsonWs r1 with
        | ':' :: r2 =>
          match parseJsonValue f r2 with
          | none => none
          | some (v, r3) =>
            match skipJsonWs r3 with
            | ',' :: r4 => (parseJsonMembers f r4).map (fun t => ((String.mk k, v) :: t.1, t.2))
            | '\x7d' :: r4 => some ([(String.mk k, v)], r4)
            | _ => none
        | _ => none
    | _ => none

end

/-- Embedding of `json.loads`: parse a complete JSON document, requiring only
whitespace after the value.  `none` models `json.JSONDecodeError`. -/
def jsonLoads (s : String) : Option Json :=
  match parseJsonValue (s.length * 4 + 4) s.data with
  | some (v, rest) => if skipJsonWs rest = [] then some v else none
  | none => none

/-! ### SyntheticDataGenerator (synthetic_data.py) -/

/-- Python `str.strip()`. -/
def pyStrip (s : String) : String :=
  String.mk (((s.data.dropWhile pyIsSpace).reverse.dropWhile pyIsSpace).reverse)

/-- Line-break characters recognized by Python `str.splitlines()`. -/
def pyIsLineBreak (c : Char) : Bool :=
  c = '\n' || c = '\r' || c = '\x0b' || c = '\x0c' || c = '\x1c' || c = '\x1d'
    || c = '\x1e' || c = '\x85' || c = '\u2028' || c = '\u2029'

/-- Accumulator-passing worker for `str.splitlines()`:  `\r\n` counts as one
break, a trailing segment is kept only when non-empty. -/
def pySplitlinesAux : List Char → List Char → List (List Char)
  | [], acc => if acc = [] then [] else [acc.reverse]
  | '\r' :: '\n' :: rest, acc => acc.reverse :: pySplitlinesAux rest []
  | c :: rest, acc =>
    if pyIsLineBreak c then acc.reverse :: pySplitlinesAux rest []
    else pySplitlinesAux rest (c :: acc)

/-- Python `str.splitlines()`. -/
def pySplitlines (cs : List Char) : List (List Char) := pySplitlinesAux cs []

/-- Python `str.startswith` on character lists. -/
def listStartsWith (p cs : List Char) : Bool := decide (cs.take p.length = p)

/-- Embedding of `SyntheticDataGenerator._remove_markdown_fences`
(synthetic_data.py lines 107–121). -/
def remove_markdown_fences (text : String) : String :=
  if listStartsWith "```".data text.data then
    let lines0 := pySplitlines text.data
    let lines1 := match lines0 with
      | l0 :: rest => if listStartsWith "```".data (pyStrip (String.mk l0)).data then rest else lines0
      | [] => lines0
    let lines2 := match lines1.getLast? with
      | some l => if pyStrip (String.mk l) = "```" then lines1.dropLast else lines1
      | none => lines1
    String.intercalate "\n" (lines2.map String.mk)
  else text

/-- Validation applied to one raw (already `.strip()`-ed) LLM response
(synthetic_data.py lines 82–97): strip markdown fences, drop blank lines,
require at least 10 lines, `json.loads` every line and re-serialize.  The
carried error strings abbreviate the Python messages; no claim depends on
their exact text. -/
def processResponse (raw : String) : Except String String :=
  let cleaned := remove_markdown_fences raw
  let lines := (pySplitlines cleaned.data).filter (fun l => pyStrip (String.mk l) ≠ "")
  if lines.length < 10 then Except.error "Expected at least 10 lines"
  else
    match lines.mapM (fun l => jsonLoads (String.mk l)) with
    | some objs => Except.ok (String.intercalate "\n" (objs.map dumps))
    | none => Except.error "Invalid JSON line"

/-- Outcome of attempt number `k` of the retry loop: the LLM oracle either
raises (`Except.error`, an API failure) or returns raw text, which is then
`.strip()`-ed and validated.  The best-effort `_log_response` call touches no
modelled state (it catches its own failures, synthetic_data.py lines 140–141). -/
def attemptResult (oracle : Nat → Except String String) (k : Nat) : Except String String :=
  match oracle k with
  | Except.error e => Except.error e
  | Except.ok raw => processResponse (pyStrip raw)

/-- Boolean test that an `Except` is on its error branch. -/
def exceptFailed {ε α : Type} : Except ε α → Bool
  | Except.error _ => true
  | Except.ok _ => false

/-- Summary placeholder: the input text truncated to 50 characters
(synthetic_data.py line 176). -/
def summaryOf (inputText : String) : String :=
  if inputText.length ≤ 50 then inputText else inputText.take 50 ++ "..."

/-- One `messages` entry. -/
def jsonMsg (role content : String) : Json :=
  Json.obj [("role", Json.str role), ("content", Json.str content)]

/-- The three fixed fallback templates (synthetic_data.py lines 151–173) with
their `{input_text}` / `{summary}` placeholders filled by `str.format`; the
template strings are constants, so `format` is plain concatenation and cannot
fail. -/
def fallbackTemplate : Fin 3 → String → String → Json
  | ⟨0, _⟩, input, summary => Json.obj [("messages", Json.arr
      [jsonMsg "system" "You are a factual assistant that provides accurate answers.",
       jsonMsg "user" ("Please explain the following data: " ++ input),
       jsonMsg "assistant" ("Based on the data, it appears that " ++ summary ++ ".")])]
  | ⟨1, _⟩, input, summary => Json.obj [("messages", Json.arr
      [jsonMsg "system" "You are a helpful and knowledgeable assistant.",
       jsonMsg "user" ("What does the following information mean? " ++ input),
       jsonMsg "assistant" ("This information suggests that " ++ summary ++ ".")])]
  | ⟨2, _⟩, input, summary => Json.obj [("messages", Json.arr
      [jsonMsg "system" "You are a factual assistant.",
       jsonMsg "user" ("Summarize this data: " ++ input),
       jsonMsg "assistant" ("In summary, " ++ summary ++ ".")])]

/-- The `fallback_lines` list built by `generate_fallback_jsonl`
(synthetic_data.py lines 175–185).  `choice` is the stream of
`random.choice` draws: the Python function reads the process-wide RNG, which
the embedding makes an explicit argument. -/
def fallbackLines (inputText : String) (minExamples : Nat) (choice : Nat → Fin 3) : List String :=
  (List.range minExamples).map
    (fun k => dumps (fallbackTemplate (choice k) inputText (summaryOf inputText)))

/-- Embedding of `SyntheticDataGenerator.generate_fallback_jsonl`
(synthetic_data.py lines 143–191).  The final per-line `json.loads`
self-check (lines 188–189) always succeeds on `json.dumps` output and is not
re-modelled as a failure source. -/
def generate_fallback_jsonl (inputText : String) (minExamples : Nat) (choice : Nat → Fin 3) : String :=
  String.intercalate "\n" (fallbackLines inputText minExamples choice)

/-- Aggregation of chunks into the prompt input text (synthetic_data.py lines
46–49): strip chunks, drop blanks, join with newlines, and substitute the
generic sentence when nothing remains. -/
def inputTextOf (chunks : List String) : String :=
  let t := String.intercalate "\n" ((chunks.map pyStrip).filter (fun s => s ≠ ""))
  if t = "" then "Generic financial data: creditor details and personal info." else t

/-- The `while attempts < max_attempts` retry loop (synthetic_data.py lines
69–105): `k` is the next attempt index, `r` the remaining attempts.  A
successful attempt returns its re-serialized lines; when the last attempt
fails the deterministic fallback with `min_examples=10` is returned; with
zero attempts remaining (only reachable when `max_attempts ≤ 0`) the Python
function falls off the loop and returns `None`, modelled as `none`. -/
def genLoop (oracle : Nat → Except String String) (choice : Nat → Fin 3)
    (inputText : String) : Nat → Nat → Option String
  | _, 0 => none
  | k, r + 1 =>
    match attemptResult oracle k with
    | Except.ok s => some s
    | Except.error _ =>
      if r = 0 then some (generate_fallback_jsonl inputText 10 choice)
      else genLoop oracle choice inputText (k + 1) r

/-- Embedding of `SyntheticDataGenerator.generate_synthetic_jsonl`
(synthetic_data.py lines 30–105). -/
def generate_synthetic_jsonl (oracle : Nat → Except String String)
    (choice : Nat → Fin 3) (chunks : List String) (maxAttempts : Nat) : Option String :=
  genLoop oracle choice (inputTextOf chunks) 0 maxAttempts

/-! ### Claims C6 and C7: fallback determinism and the fallback guarantee -/

/-- C6 counterexample: `generate_fallback_jsonl` reads the process-wide RNG
through `random.choice`, so two calls with identical `input_text` and
`min_examples` but different RNG draw sequences produce different output —
the claimed determinism fails. -/
theorem generate_fallback_jsonl_not_deterministic :
    generate_fallback_jsonl "x" 1 (fun _ => (0 : Fin 3))
      ≠ generate_fallback_jsonl "x" 1 (fun _ => (1 : Fin 3)) := by
  decide

/-- C6 amended: fallback synthesis is deterministic only relative to the RNG
draws — two calls with the same `input_text`, `min_examples`, and sequence of
template draws produce identical output — and regardless of the draws the
output is exactly `min_examples` lines, each one of the three fixed templates
filled with `input_text` and the 50-character-truncated summary. -/
theorem generate_fallback_jsonl_deterministic_given_draws
    (inputText : String) (minExamples : Nat) (choice choice' : Nat → Fin 3)
    (h : ∀ k, k < minExamples → choice k = choice' k) :
    generate_fallback_jsonl inputText minExamples choice
      = generate_fallback_jsonl inputText minExamples choice' ∧
    (fallbackLines inputText minExamples choice).length = minExamples ∧
    ∀ l ∈ fallbackLines inputText minExamples choice,
      ∃ i : Fin 3, l = dumps (fallbackTemplate i inputText (summaryOf inputText)) := by
  refine ⟨?_, ?_, ?_⟩
  · unfold generate_fallback_jsonl fallbackLines
    congr 1
    refine List.map_congr_left ?_
    intro k hk
    rw [h k (List.mem_range.mp hk)]
  · simp [fallbackLines]
  · intro l hl
    rcases List.mem_map.mp hl with ⟨k, _, rfl⟩
    exact ⟨choice k, rfl⟩

/-- Witness for `generate_fallback_jsonl_deterministic_given_draws` at
concrete arguments. -/
theorem generate_fallback_jsonl_deterministic_given_draws_witness :
    generate_fallback_jsonl "data" 2 (fun _ => (2 : Fin 3))
      = generate_fallback_jsonl "data" 2 (fun _ => (2 : Fin 3)) ∧
    (fallbackLines "data" 2 (fun _ => (2 : Fin 3))).length = 2 ∧
    ∀ l ∈ fallbackLines "data" 2 (fun _ => (2 : Fin 3)),
      ∃ i : Fin 3, l = dumps (fallbackTemplate i "data" (summaryOf "data")) :=
  generate_fallback_jsonl_deterministic_given_draws "data" 2 _ _ (fun _ _ => rfl)

theorem genLoop_all_fail (oracle : Nat → Except String String)
    (choice : Nat → Fin 3) (inputText : String) :
    ∀ r k, 1 ≤ r → (∀ j, j < r → exceptFailed (attemptResult oracle (k + j)) = true) →
    genLoop oracle choice inputText k r
      = some (generate_fallback_jsonl inputText 10 choice) := by
  intro r
  induction r with
  | zero => omega
  | succ r ih =>
    intro k _ hf
    have hk0 : exceptFailed (attemptResult oracle k) = true := by
      have := hf 0 (by omega)
      simpa using this
    simp only [genLoop]
    cases hres : attemptResult oracle k with
    | ok s => rw [hres] at hk0; simp [exceptFailed] at hk0
    | error e =>
      by_cases hr : r = 0
      · subst hr; simp
      · simp only [hr, if_false]
        refine ih (k + 1) (by omega) ?_
        intro j hj
        have h2 : k + 1 + j = k + (j + 1) := by omega
        rw [h2]
        exact hf (j + 1) (by omega)

/-- C7: whenever every one of the `max_attempts ≥ 1` LLM attempts fails —
API error, fewer than 10 non-blank lines, or an invalid JSON line —
`generate_synthetic_jsonl` still returns (never raises): its result is the
fallback output, at least 10 newline-joined lines, each of which is valid
JSON. -/
theorem generate_synthetic_jsonl_fallback_guarantee
    (oracle : Nat → Except String String) (choice : Nat → Fin 3)
    (chunks : List String) (maxAttempts : Nat) (hmax : 1 ≤ maxAttempts)
    (hfail : ∀ k, k < maxAttempts → exceptFailed (attemptResult oracle k) = true) :
    ∃ ls : List String,
      generate_synthetic_jsonl oracle choice chunks maxAttempts
        = some (String.intercalate "\n" ls)
      ∧ 10 ≤ ls.length
      ∧ ∀ l ∈ ls, IsValidJson l := by
  refine ⟨fallbackLines (inputTextOf chunks) 10 choice, ?_, ?_, ?_⟩
  · unfold generate_synthetic_jsonl
    rw [genLoop_all_fail oracle choice (inputTextOf chunks) maxAttempts 0 hmax
      (fun j hj => by simpa using hfail j hj)]
    rfl
  · simp [fallbackLines]
  · intro l hl
    rcases List.mem_map.mp hl with ⟨k, _, rfl⟩
    exact ⟨fallbackTemplate (choice k) (inputTextOf chunks)
      (summaryOf (inputTextOf chunks)), rfl⟩

/-- Witness for `generate_synthetic_jsonl_fallback_guarantee`: an oracle that
always returns the empty response (0 non-blank lines, hence malformed) with
the default `max_attempts = 3`. -/
theorem generate_synthetic_jsonl_fallback_guarantee_witness :
    ∃ ls : List String,
      generate_synthetic_jsonl (fun _ => Except.ok "") (fun _ => (0 : Fin 3)) ["doc"] 3
        = some (String.intercalate "\n" ls)
      ∧ 10 ≤ ls.length
      ∧ ∀ l ∈ ls, IsValidJson l :=
  generate_synthetic_jsonl_fallback_guarantee (fun _ => Except.ok "")
    (fun _ => (0 : Fin 3)) ["doc"] 3 (by decide) (by decide)

/-! ### RagService retrieval (rag.py) -/

/-- Python list indexing `l[i]`, including negative indexing; `none` models
`IndexError`. -/
def pyGet {α : Type} (l : List α) (i : Int) : Option α :=
  let j : Int := if i < 0 then i + l.length else i
  if 0 ≤ j ∧ j < (l.length : Int) then l.get? j.toNat else none

/-- Embedding of the retrieval comprehension of `RagService.rag_query` /
`rag_query_by_job` (rag.py lines 94–95 and 143–144):
`[chunks[i] for i in indices[0] if i < len(chunks)]` where `indices[0]` is
the row of neighbor ids returned by `index.search(..., k=min(5, len(chunks)))`.
The FAISS search itself is external; its result row is the `idxs` argument.
`none` models an `IndexError` escaping the comprehension. -/
def ragRetrieve (chunks : List String) : List Int → Option (List String)
  | [] => some []
  | i :: is =>
    if i < (chunks.length : Int) then
      match pyGet chunks i, ragRetrieve chunks is with
      | some x, some r => some (x :: r)
      | _, _ => none
    else ragRetrieve chunks is

theorem pyGet_spec {α : Type} (l : List α) (i : Int) (x : α)
    (h : pyGet l i = some x) : ∃ p, p < l.length ∧ l.get? p = some x := by
  unfold pyGet at h
  by_cases hneg : i < 0
  · simp only [hneg, ite_true] at h
    split at h
    · rename_i hj
      exact ⟨(i + l.length).toNat, by omega, h⟩
    · simp at h
  · simp only [hneg, ite_false] at h
    split at h
    · rename_i hj
      exact ⟨i.toNat, by omega, h⟩
    · simp at h

/-- C10: against a chunk list of length `L`, with the FAISS contract that the
search row for `k = min(5, L)` holds at most `min(5, L)` ids, the retrieval
step returns at most `min(5, L)` chunks and every returned chunk sits at a
position `< L` in the chunk list — no out-of-range position is ever selected. -/
theorem ragRetrieve_cap (chunks : List String) (idxs : List Int)
    (hlen : idxs.length ≤ min 5 chunks.length) (r : List String)
    (h : ragRetrieve chunks idxs = some r) :
    r.length ≤ min 5 chunks.length ∧
    ∀ x ∈ r, ∃ p, p < chunks.length ∧ chunks.get? p = some x := by
  have main : ∀ (is : List Int) (r : List String), ragRetrieve chunks is = some r →
      r.length ≤ is.length ∧ ∀ x ∈ r, ∃ p, p < chunks.length ∧ chunks.get? p = some x := by
    intro is
    induction is with
    | nil =>
      intro r h
      simp only [ragRetrieve, Option.some.injEq] at h
      subst h
      simp
    | cons i is ih =>
      intro r h
      simp only [ragRetrieve] at h
      split at h
      · cases hg : pyGet chunks i with
        | none => rw [hg] at h; simp at h
        | some x =>
          rw [hg] at h
          cases hr : ragRetrieve chunks is with
          | none => rw [hr] at h; simp at h
          | some r' =>
            rw [hr] at h
            simp only [Option.some.injEq] at h
            subst h
            obtain ⟨h1, h2⟩ := ih r' hr
            refine ⟨by simpa using Nat.succ_le_succ h1, ?_⟩
            intro y hy
            rcases List.mem_cons.mp hy with hy | hy
            · subst hy
              exact pyGet_spec chunks i y hg
            · exact h2 y hy
      · obtain ⟨h1, h2⟩ := ih r h
        exact ⟨Nat.le_succ_of_le h1, h2⟩
  obtain ⟨h1, h2⟩ := main idxs r h
  exact ⟨le_trans h1 hlen, h2⟩

/-- Witness for `ragRetrieve_cap`: three chunks, a search row with a
duplicate and a negative id. -/
theorem ragRetrieve_cap_witness :
    ([(2 : Int), 0, -1].length ≤ min 5 ["a", "b", "c"].length) ∧
    (["c", "a", "c"].length ≤ min 5 ["a", "b", "c"].length ∧
      ∀ x ∈ ["c", "a", "c"], ∃ p, p < ["a", "b", "c"].length ∧
        ["a", "b", "c"].get? p = some x) :=
  ⟨by decide,
    ragRetrieve_cap ["a", "b", "c"] [(2 : Int), 0, -1] (by decide)
      ["c", "a", "c"] (by decide)⟩

/-! ### Database rows and the session model (app/models, app/db) -/

/-- Row of the `jobs` table (models/job.py).  `completed_at_set` records
whether the nullable `completed_at` timestamp has been filled. -/
structure JobRow where
  id : Nat
  job_name : String
  status : String
  job_type : String
  file_count : Nat
  document_count : Nat
  completed_at_set : Bool
deriving DecidableEq

/-- Row of the `documents` table (models/document.py). -/
structure DocumentRow where
  job_id : Nat
  blob_path : String
  file_type : String
  jsonl_blob_path : Option String
  faiss_index_blob_path : Option String
  chunks_blob_path : Option String
  is_aggregated : Bool
deriving DecidableEq

/-- Row of the `job_activity_logs` table (models/job_activity_log.py). -/
structure LogRow where
  job_id : Nat
  event_type : String
  message : String
deriving DecidableEq

/-- Committed database state.  Each table is a list in insertion
(primary-key) order, the order in which SQLite returns rows to an unordered
query. -/
structure Db where
  jobs : List JobRow
  docs : List DocumentRow
  logs : List LogRow
deriving DecidableEq

/-- SQLAlchemy session: committed state plus rows added but not yet
committed.  `commit` flushes pending rows; `rollback` discards them. -/
structure Session where
  committed : Db
  pendingJobs : List JobRow
  pendingDocs : List DocumentRow
  pendingLogs : List LogRow
deriving DecidableEq

/-- Flush pending rows into the committed state (`db.commit()`). -/
def Session.commit (s : Session) : Session :=
  ⟨⟨s.committed.jobs ++ s.pendingJobs, s.committed.docs ++ s.pendingDocs,
    s.committed.logs ++ s.pendingLogs⟩, [], [], []⟩

/-- Discard pending rows (`db.rollback()`). -/
def Session.rollback (s : Session) : Session := ⟨s.committed, [], [], []⟩

/-- Stage a job row (`db.add(job)`). -/
def Session.addJob (s : Session) (j : JobRow) : Session :=
  ⟨s.committed, s.pendingJobs ++ [j], s.pendingDocs, s.pendingLogs⟩

/-- Stage a document row (`db.add(document)`). -/
def Session.addDoc (s : Session) (d : DocumentRow) : Session :=
  ⟨s.committed, s.pendingJobs, s.pendingDocs ++ [d], s.pendingLogs⟩

/-- Stage an activity-log row (`db.add(log_entry)`). -/
def Session.addLog (s : Session) (l : LogRow) : Session :=
  ⟨s.committed, s.pendingJobs, s.pendingDocs, s.pendingLogs ++ [l]⟩

/-- Embedding of `JobLogger.log_job_activity` (job_logger.py): add one log row
and commit.  Its own persistence failure is caught, rolled back and only
logged locally; the success path is modelled. -/
def log_job_activity (s : Session) (jobId : Nat) (eventType msg : String) : Session :=
  (s.addLog ⟨jobId, eventType, msg⟩).commit

/-- Autoincrement primary key: one more than the largest existing job id. -/
def nextJobId (db : Db) : Nat :=
  (db.jobs.map (fun j => j.id)).foldr max 0 + 1

/-- Status of the job row with the given id, if any. -/
def jobStatus (db : Db) (jobId : Nat) : Option String :=
  (db.jobs.find? (fun j => j.id = jobId)).map (fun j => j.status)

/-- The job row inserted by `_create_job`: `pending` status, declared file
count, zero documents, no completion timestamp. -/
def createdJobRow (db : Db) (jobName : String) (fileCount : Nat) : JobRow :=
  ⟨nextJobId db, jobName, "pending", "process_document", fileCount, 0, false⟩

/-- Session state after `_create_job`: the job row committed plus the
`job_created` activity log. -/
def createdJobSession (s : Session) (jobName : String) (fileCount : Nat) : Session :=
  log_job_activity ((s.addJob (createdJobRow s.committed jobName fileCount)).commit)
    (createdJobRow s.committed jobName fileCount).id "job_created"
    ("Created job with " ++ toString fileCount ++ " file(s) and name " ++ jobName)

/-- Embedding of `UploadService._create_job` (upload.py lines 74–97): insert a
`pending` job row, commit, and log `job_created`. -/
def _create_job (s : Session) (jobName : String) (fileCount : Nat) : JobRow × Session :=
  (createdJobRow s.committed jobName fileCount, createdJobSession s jobName fileCount)

/-! ### The per-file pipeline (upload.py, blob_storage.py) -/

/-- Outcome of the external effects inside the FAISS block of
`UploadService._upload_artifacts` (upload.py lines 210–229): the
`create_faiss_index` call with its embedding requests and index-file read,
then the two artifact uploads.  `failChunksUpload` fails after the index blob
path was already assigned. -/
inductive FaissStep : Type where
  | ok : FaissStep
  | failBuild : FaissStep
  | failFaissUpload : FaissStep
  | failChunksUpload : FaissStep
deriving DecidableEq

/-- One uploaded file together with the outcomes of the external calls made
on its behalf.  `content` is `file.file.read()`; `parseResult` is the outcome
of the text extraction (`DocumentParser._parse_file`, an external parsing
library) and also absorbs a failure of the blob round-trip of steps (b)–(c),
which aborts the file the same way; `jsonlStr` is the string returned by
`generate_synthetic_jsonl` when chunks exist (always a string — see
`generate_synthetic_jsonl_fallback_guarantee`). -/
structure FileSpec where
  filename : String
  content : List Nat
  content_type : String
  parseResult : Except String (List Char)
  jsonlStr : String
  faissStep : FaissStep

/-- Contribution of one successfully processed file: the values appended to
the aggregation accumulators and the Document row created for it. -/
structure PerFileResult where
  jsonl : Option String
  chunks : List (List Char)
  doc : DocumentRow
deriving DecidableEq

/-- Blob locator returned by `upload_to_blob_async` against the remote store:
`container/blob_name` (blob_storage.py line 70). -/
def blobLocator (container name : String) : String := container ++ "/" ++ name

/-- Per-file JSONL artifact blob name (upload.py line 207). -/
def jsonlBlobName (jobId : Nat) (folder fname : String) : String :=
  blobLocator "artifacts" (folder ++ "/jsonl/" ++ toString jobId ++ "_" ++ fname ++ "_combined.jsonl")

/-- Per-file FAISS index blob name (upload.py line 219). -/
def faissBlobName (jobId : Nat) (folder fname : String) : String :=
  blobLocator "artifacts" (folder ++ "/faiss/" ++ toString jobId ++ "_" ++ fname ++ "_index.bin")

/-- Per-file chunk-list blob name (upload.py line 224). -/
def chunksBlobName (jobId : Nat) (folder fname : String) : String :=
  blobLocator "artifacts" (folder ++ "/chunks/" ++ toString jobId ++ "_" ++ fname ++ "_chunks.json")

/-- The `(faiss_blob, chunks_blob)` pair produced by the FAISS block of
`_upload_artifacts`: skipped for empty chunks; on any exception inside the
block the error is caught and logged (upload.py lines 230–231) and whatever
blob paths were not yet assigned stay `None`. -/
def perFileFaissChunksBlobs (jobId : Nat) (folder : String) (f : FileSpec)
    (chunks : List (List Char)) : Option String × Option String :=
  if chunks = [] then (none, none)
  else
    match f.faissStep with
    | FaissStep.ok =>
      (some (faissBlobName jobId folder f.filename), some (chunksBlobName jobId folder f.filename))
    | FaissStep.failBuild => (none, none)
    | FaissStep.failFaissUpload => (none, none)
    | FaissStep.failChunksUpload => (some (faissBlobName jobId folder f.filename), none)

/-- Result of steps (d)–(g) for a file whose original upload and parse
succeeded: chunk the text (`DocumentParser.process_file`, chunk size 1000),
generate synthetic JSONL unless there are no chunks, upload whichever
artifacts exist (`_upload_artifacts` — the JSONL upload is skipped for a
falsy, i.e. empty, string), and build the non-aggregated Document row. -/
def perFileOk (jobId : Nat) (folder : String) (f : FileSpec) (text : List Char) : PerFileResult :=
  let chunks := chunk_text text 1000
  let jsonl : Option String := if chunks = [] then none else some f.jsonlStr
  let fc := perFileFaissChunksBlobs jobId folder f chunks
  { jsonl := jsonl
  , chunks := chunks
  , doc :=
    { job_id := jobId
    , blob_path := blobLocator "documents" (folder ++ "/" ++ f.filename)
    , file_type := f.content_type
    , jsonl_blob_path :=
        if chunks = [] then none
        else if f.jsonlStr = "" then none
        else some (jsonlBlobName jobId folder f.filename)
    , faiss_index_blob_path := fc.1
    , chunks_blob_path := fc.2
    , is_aggregated := false } }

/-- Steps (b)–(g) of the per-file loop of `UploadService._process_files`
(upload.py lines 147–168) apart from the database writes:
`upload_to_blob_async` rejects empty data with `ValueError` (blob_storage.py
lines 47–49) before anything else happens for the file; then the parse
outcome decides between failure and `perFileOk`. -/
def perFileStep (jobId : Nat) (folder : String) (f : FileSpec) : Except String PerFileResult :=
  if f.content = [] then Except.error "Data cannot be empty or None"
  else
    match f.parseResult with
    | Except.error e => Except.error e
    | Except.ok text => Except.ok (perFileOk jobId folder f text)

/-- Document rows created for a list of files, in order (one per file whose
per-file step succeeds). -/
def perFileDocs (jobId : Nat) (folder : String) (files : List FileSpec) : List DocumentRow :=
  files.filterMap (fun f =>
    match perFileStep jobId folder f with
    | Except.ok r => some r.doc
    | Except.error _ => none)

/-- Truthiness append of a per-file JSONL string to `aggregated_jsonl`
(upload.py lines 161–162: an empty string is falsy and skipped). -/
def accJsonl (acc : List String) (j : Option String) : List String :=
  match j with
  | some str => if str = "" then acc else acc ++ [str]
  | none => acc

/-- Truthiness extend of per-file chunks onto `aggregated_chunks`
(upload.py lines 163–164). -/
def accChunks (acc : List (List Char)) (cs : List (List Char)) : List (List Char) :=
  if cs = [] then acc else acc ++ cs

/-- Session after one successful file: the `file_upload_started` log, the
committed Document row, and the `document_created` log. -/
def afterFileSession (s : Session) (jobId : Nat) (fname : String) (d : DocumentRow) : Session :=
  log_job_activity
    (((log_job_activity s jobId "file_upload_started" ("Processing file: " ++ fname)).addDoc d).commit)
    jobId "document_created" "Document record created for file"

/-- Session after a failed file: the `file_upload_started` log, the rollback
of the pending transaction, and the `file_processing_failed` log. -/
def failFileSession (s : Session) (jobId : Nat) (fname e : String) : Session :=
  log_job_activity
    (log_job_activity s jobId "file_upload_started" ("Processing file: " ++ fname)).rollback
    jobId "file_processing_failed" ("Error processing " ++ fname ++ ": " ++ e)

/-- Embedding of `UploadService._process_files` (upload.py lines 115–178):
for each file in order, log `file_upload_started`, run the per-file step,
and on success append to the aggregation accumulators (`acc` is
`(aggregated_jsonl, aggregated_chunks, doc_count)`; the truthiness tests of
lines 161–164 skip empty strings and empty chunk lists), create and commit
the Document row, and log `document_created`.  On the first failure: roll
back the pending transaction, log `file_processing_failed`, and surface the
`HTTPException` — the whole batch aborts, but rows committed for earlier
files remain committed. -/
def _process_files (jobId : Nat) (folder : String) :
    List FileSpec → List String × List (List Char) × Nat → Session →
    Except (String × Session) (List String × List (List Char) × Nat × Session)
  | [], acc, s => Except.ok (acc.1, acc.2.1, acc.2.2, s)
  | f :: rest, acc, s =>
    match perFileStep jobId folder f with
    | Except.error e =>
      Except.error ("Failed to process file " ++ f.filename ++ ": " ++ e,
        failFileSession s jobId f.filename e)
    | Except.ok r =>
      _process_files jobId folder rest
        (accJsonl acc.1 r.jsonl, accChunks acc.2.1 r.chunks, acc.2.2 + 1)
        (afterFileSession s jobId f.filename r.doc)

/-- Embedding of `UploadService._create_aggregated_artifacts` (upload.py
lines 268–336).  `aggFaiss` is the outcome of the aggregated
`create_faiss_index` call together with its index-file read and the two
uploads; unlike the per-file block it sits in no try/except, so its failure
propagates out of `upload_files`. -/
def _create_aggregated_artifacts (jobId : Nat) (folder : String)
    (aggJsonl : List String) (aggChunks : List (List Char))
    (aggFaiss : Except String Unit) (s : Session) : Except (String × Session) Session :=
  let jp : Option String :=
    if aggJsonl = [] then none
    else some (blobLocator "artifacts" (folder ++ "/jsonl/" ++ toString jobId ++ "_combined.jsonl"))
  let s1 :=
    if aggJsonl = [] then s
    else log_job_activity s jobId "aggregated_jsonl_created" "Aggregated JSONL uploaded"
  if aggChunks = [] then
    Except.ok (log_job_activity
      ((s1.addDoc ⟨jobId, "", "aggregated", jp, none, none, true⟩).commit)
      jobId "aggregated_document_created" "Aggregated Document record created")
  else
    match aggFaiss with
    | Except.error e => Except.error (e, s1)
    | Except.ok _ =>
      let fp := blobLocator "artifacts" (folder ++ "/faiss/" ++ toString jobId ++ "_combined.bin")
      let cp := blobLocator "artifacts" (folder ++ "/chunks/" ++ toString jobId ++ "_combined.json")
      let s2 := log_job_activity s1 jobId "aggregated_faiss_created" "Aggregated FAISS uploaded"
      let s3 := log_job_activity s2 jobId "aggregated_chunks_created" "Aggregated chunks uploaded"
      Except.ok (log_job_activity
        ((s3.addDoc ⟨jobId, "", "aggregated", jp, some fp, some cp, true⟩).commit)
        jobId "aggregated_document_created" "Aggregated Document record created")

/-- Apply an attribute update to the job row with the given id. -/
def updateJob (db : Db) (jobId : Nat) (f : JobRow → JobRow) : Db :=
  ⟨db.jobs.map (fun j => if j.id = jobId then f j else j), db.docs, db.logs⟩

/-- Embedding of `UploadService._finalize_job` (upload.py lines 338–362): set
`document_count`, `status = "completed"` and `completed_at`, commit, and log
`job_completed`.  The attribute writes are flushed by the immediate commit,
so they act directly on committed state; scratch-folder cleanup touches only
the filesystem. -/
def finalizeUpdate (docCount : Nat) (j : JobRow) : JobRow :=
  { j with document_count := docCount, status := "completed", completed_at_set := true }

def _finalize_job (jobId : Nat) (docCount : Nat) (s : Session) : Session :=
  let s1 : Session :=
    ⟨updateJob s.committed jobId (finalizeUpdate docCount),
     s.pendingJobs, s.pendingDocs, s.pendingLogs⟩
  log_job_activity s1 jobId "job_completed"
    ("Completed processing with " ++ toString docCount ++ " document(s)")

/-- Embedding of `UploadService.upload_files` (upload.py lines 41–72): reject
an empty batch, create the job, derive the job folder name, run the per-file
loop, build the aggregated artifacts, finalize.  Surfaced errors carry the
committed database state at the time they escape. -/
def upload_files (db0 : Db) (jobName : String) (files : List FileSpec)
    (aggFaiss : Except String Unit) : Except (String × Db) (JobRow × Db) :=
  if files.isEmpty then Except.error ("No files uploaded", db0)
  else
    let s0 : Session := ⟨db0, [], [], []⟩
    let js := _create_job s0 jobName files.length
    let job := js.1
    let folder := "job-" ++ toString job.id ++ "-" ++ jobName
    match _process_files job.id folder files ([], [], 0) js.2 with
    | Except.error es => Except.error (es.1, es.2.committed)
    | Except.ok (aggJsonl, aggChunks, cnt, s2) =>
      match _create_aggregated_artifacts job.id folder aggJsonl aggChunks aggFaiss s2 with
      | Except.error es => Except.error (es.1, es.2.committed)
      | Except.ok s3 =>
        let s4 := _finalize_job job.id cnt s3
        Except.ok ((s4.committed.jobs.find? (fun j => j.id = job.id)).getD job, s4.committed)

/-! ### Orchestrator lemmas -/

theorem le_foldr_max (xs : List Nat) (x : Nat) (h : x ∈ xs) : x ≤ xs.foldr max 0 := by
  induction xs with
  | nil => simp at h
  | cons a xs ih =>
    simp only [List.foldr_cons]
    rcases List.mem_cons.mp h with h | h
    · subst h
      exact le_max_left _ _
    · exact le_trans (ih h) (le_max_right _ _)

theorem jobId_lt_nextJobId (db : Db) (j : JobRow) (h : j ∈ db.jobs) :
    j.id < nextJobId db := by
  have := le_foldr_max (db.jobs.map (fun j => j.id)) j.id
    (List.mem_map_of_mem _ h)
  unfold nextJobId
  omega

theorem find?_append_of_none {α : Type} (p : α → Bool) (l1 l2 : List α)
    (h : ∀ a ∈ l1, p a = false) : (l1 ++ l2).find? p = l2.find? p := by
  induction l1 with
  | nil => simp
  | cons a l ih =>
    have ha := h a (by simp)
    rw [List.cons_append, List.find?_cons_of_neg _ (by simp [ha])]
    exact ih (fun b hb => h b (by simp [hb]))

theorem afterFileSession_state (s : Session) (jobId : Nat) (fname : String)
    (d : DocumentRow) (h1 : s.pendingJobs = []) (h2 : s.pendingDocs = []) :
    (afterFileSession s jobId fname d).committed.jobs = s.committed.jobs
    ∧ (afterFileSession s jobId fname d).committed.docs = s.committed.docs ++ [d]
    ∧ (afterFileSession s jobId fname d).pendingJobs = []
    ∧ (afterFileSession s jobId fname d).pendingDocs = [] := by
  refine ⟨?_, ?_, rfl, rfl⟩ <;>
    simp [afterFileSession, log_job_activity, Session.addLog, Session.addDoc,
      Session.commit, h1, h2]

theorem failFileSession_state (s : Session) (jobId : Nat) (fname e : String)
    (h1 : s.pendingJobs = []) (h2 : s.pendingDocs = []) :
    (failFileSession s jobId fname e).committed.jobs = s.committed.jobs
    ∧ (failFileSession s jobId fname e).committed.docs = s.committed.docs := by
  constructor <;>
    simp [failFileSession, log_job_activity, Session.addLog, Session.commit,
      Session.rollback, h1, h2]

theorem process_files_fail_spec (jobId : Nat) (folder : String) :
    ∀ (good : List FileSpec) (f : FileSpec) (rest : List FileSpec) (e : String)
      (acc : List String × List (List Char) × Nat) (s : Session),
      s.pendingJobs = [] → s.pendingDocs = [] →
      (∀ g ∈ good, exceptFailed (perFileStep jobId folder g) = false) →
      perFileStep jobId folder f = Except.error e →
      ∃ e' s', _process_files jobId folder (good ++ f :: rest) acc s = Except.error (e', s')
        ∧ s'.committed.docs = s.committed.docs ++ perFileDocs jobId folder good
        ∧ s'.committed.jobs = s.committed.jobs := by
  intro good
  induction good with
  | nil =>
    intro f rest e acc s h1 h2 hg hf
    obtain ⟨hjobs, hdocs⟩ := failFileSession_state s jobId f.filename e h1 h2
    refine ⟨"Failed to process file " ++ f.filename ++ ": " ++ e,
      failFileSession s jobId f.filename e, ?_, ?_, hjobs⟩
    · simp only [List.nil_append, _process_files, hf]
    · simp [hdocs, perFileDocs]
  | cons g good ih =>
    intro f rest e acc s h1 h2 hg hf
    have hgok : exceptFailed (perFileStep jobId folder g) = false := hg g (by simp)
    cases hstep : perFileStep jobId folder g with
    | error e2 =>
      rw [hstep] at hgok
      simp [exceptFailed] at hgok
    | ok r =>
      obtain ⟨hjobs2, hdocs2, hpj2, hpd2⟩ :=
        afterFileSession_state s jobId g.filename r.doc h1 h2
      obtain ⟨e', s', heq, hdocs, hjobs⟩ :=
        ih f rest e
          (accJsonl acc.1 r.jsonl, accChunks acc.2.1 r.chunks, acc.2.2 + 1)
          (afterFileSession s jobId g.filename r.doc)
          hpj2 hpd2 (fun u hu => hg u (by simp [hu])) hf
      refine ⟨e', s', ?_, ?_, ?_⟩
      · rw [List.cons_append]
        simp only [_process_files, hstep]
        exact heq
      · rw [hdocs, hdocs2]
        have : perFileDocs jobId folder (g :: good) = r.doc :: perFileDocs jobId folder good := by
          simp [perFileDocs, List.filterMap_cons, hstep]
        rw [this]
        simp
      · rw [hjobs, hjobs2]

theorem process_files_ok_spec (jobId : Nat) (folder : String) :
    ∀ (files : List FileSpec) (acc : List String × List (List Char) × Nat) (s : Session),
      s.pendingJobs = [] → s.pendingDocs = [] →
      (∀ g ∈ files, exceptFailed (perFileStep jobId folder g) = false) →
      ∃ aj ac s', _process_files jobId folder files acc s
          = Except.ok (aj, ac, acc.2.2 + files.length, s')
        ∧ s'.committed.docs = s.committed.docs ++ perFileDocs jobId folder files
        ∧ s'.committed.jobs = s.committed.jobs
        ∧ s'.pendingJobs = [] ∧ s'.pendingDocs = [] := by
  intro files
  induction files with
  | nil =>
    intro acc s h1 h2 hg
    exact ⟨acc.1, acc.2.1, s, by simp [_process_files], by simp [perFileDocs], rfl, h1, h2⟩
  | cons g files ih =>
    intro acc s h1 h2 hg
    have hgok : exceptFailed (perFileStep jobId folder g) = false := hg g (by simp)
    cases hstep : perFileStep jobId folder g with
    | error e2 =>
      rw [hstep] at hgok
      simp [exceptFailed] at hgok
    | ok r =>
      obtain ⟨hjobs2, hdocs2, hpj2, hpd2⟩ :=
        afterFileSession_state s jobId g.filename r.doc h1 h2
      obtain ⟨aj, ac, s', heq, hdocs, hjobs, hpj, hpd⟩ :=
        ih (accJsonl acc.1 r.jsonl, accChunks acc.2.1 r.chunks, acc.2.2 + 1)
          (afterFileSession s jobId g.filename r.doc)
          hpj2 hpd2 (fun u hu => hg u (by simp [hu]))
      refine ⟨aj, ac, s', ?_, ?_, ?_, hpj, hpd⟩
      · simp only [_process_files, hstep]
        rw [heq]
        have : acc.2.2 + 1 + files.length = acc.2.2 + (g :: files).length := by
          simp
          omega
        rw [this]
      · rw [hdocs, hdocs2]
        have : perFileDocs jobId folder (g :: files) = r.doc :: perFileDocs jobId folder files := by
          simp [perFileDocs, List.filterMap_cons, hstep]
        rw [this]
        simp
      · rw [hjobs, hjobs2]

theorem perFileDocs_length (jobId : Nat) (folder : String) (files : List FileSpec)
    (hg : ∀ g ∈ files, exceptFailed (perFileStep jobId folder g) = false) :
    (perFileDocs jobId folder files).length = files.length := by
  induction files with
  | nil => simp [perFileDocs]
  | cons g t ih =>
    have hgok := hg g (by simp)
    cases hstep : perFileStep jobId folder g with
    | error e =>
      rw [hstep] at hgok
      simp [exceptFailed] at hgok
    | ok r =>
      have : perFileDocs jobId folder (g :: t) = r.doc :: perFileDocs jobId folder t := by
        simp [perFileDocs, List.filterMap_cons, hstep]
      rw [this, List.length_cons, ih (fun u hu => hg u (by simp [hu])), List.length_cons]

theorem create_aggregated_ok_spec (jobId : Nat) (folder : String)
    (aggJsonl : List String) (aggChunks : List (List Char)) (s : Session)
    (h1 : s.pendingJobs = []) (h2 : s.pendingDocs = []) :
    ∃ s3 aggDoc, _create_aggregated_artifacts jobId folder aggJsonl aggChunks (Except.ok ()) s
        = Except.ok s3
      ∧ s3.committed.jobs = s.committed.jobs
      ∧ s3.committed.docs = s.committed.docs ++ [aggDoc]
      ∧ aggDoc.is_aggregated = true
      ∧ s3.pendingJobs = [] ∧ s3.pendingDocs = [] := by
  by_cases hc : aggChunks = []
  · by_cases hj : aggJsonl = []
    · refine ⟨log_job_activity ((s.addDoc ⟨jobId, "", "aggregated", none, none, none, true⟩).commit)
          jobId "aggregated_document_created" "Aggregated Document record created",
        ⟨jobId, "", "aggregated", none, none, none, true⟩, ?_, ?_, ?_, rfl, rfl, rfl⟩
      · simp [_create_aggregated_artifacts, hj, hc]
      · simp [log_job_activity, Session.addLog, Session.addDoc, Session.commit, h1, h2]
      · simp [log_job_activity, Session.addLog, Session.addDoc, Session.commit, h1, h2]
    · refine ⟨log_job_activity (((log_job_activity s jobId "aggregated_jsonl_created"
            "Aggregated JSONL uploaded").addDoc
            ⟨jobId, "", "aggregated",
              some (blobLocator "artifacts"
                (folder ++ "/jsonl/" ++ toString jobId ++ "_combined.jsonl")),
              none, none, true⟩).commit)
          jobId "aggregated_document_created" "Aggregated Document record created",
        ⟨jobId, "", "aggregated",
          some (blobLocator "artifacts" (folder ++ "/jsonl/" ++ toString jobId ++ "_combined.jsonl")),
          none, none, true⟩, ?_, ?_, ?_, rfl, rfl, rfl⟩
      · simp [_create_aggregated_artifacts, hj, hc]
      · simp [log_job_activity, Session.addLog, Session.addDoc, Session.commit, h1, h2]
      · simp [log_job_activity, Session.addLog, Session.addDoc, Session.commit, h1, h2]
  · by_cases hj : aggJsonl = []
    · refine ⟨log_job_activity (((log_job_activity (log_job_activity s jobId
              "aggregated_faiss_created" "Aggregated FAISS uploaded") jobId
              "aggregated_chunks_created" "Aggregated chunks uploaded").addDoc
            ⟨jobId, "", "aggregated", none,
              some (blobLocator "artifacts" (folder ++ "/faiss/" ++ toString jobId ++ "_combined.bin")),
              some (blobLocator "artifacts" (folder ++ "/chunks/" ++ toString jobId ++ "_combined.json")),
              true⟩).commit)
          jobId "aggregated_document_created" "Aggregated Document record created",
        ⟨jobId, "", "aggregated", none,
          some (blobLocator "artifacts" (folder ++ "/faiss/" ++ toString jobId ++ "_combined.bin")),
          some (blobLocator "artifacts" (folder ++ "/chunks/" ++ toString jobId ++ "_combined.json")),
          true⟩, ?_, ?_, ?_, rfl, rfl, rfl⟩
      · simp [_create_aggregated_artifacts, hj, hc]
      · simp [log_job_activity, Session.addLog, Session.addDoc, Session.commit, h1, h2]
      · simp [log_job_activity, Session.addLog, Session.addDoc, Session.commit, h1, h2]
    · refine ⟨log_job_activity (((log_job_activity (log_job_activity
              (log_job_activity s jobId "aggregated_jsonl_created" "Aggregated JSONL uploaded")
              jobId "aggregated_faiss_created" "Aggregated FAISS uploaded") jobId
              "aggregated_chunks_created" "Aggregated chunks uploaded").addDoc
            ⟨jobId, "", "aggregated",
              some (blobLocator "artifacts" (folder ++ "/jsonl/" ++ toString jobId ++ "_combined.jsonl")),
              some (blobLocator "artifacts" (folder ++ "/faiss/" ++ toString jobId ++ "_combined.bin")),
              some (blobLocator "artifacts" (folder ++ "/chunks/" ++ toString jobId ++ "_combined.json")),
              true⟩).commit)
          jobId "aggregated_document_created" "Aggregated Document record created",
        ⟨jobId, "", "aggregated",
          some (blobLocator "artifacts" (folder ++ "/jsonl/" ++ toString jobId ++ "_combined.jsonl")),
          some (blobLocator "artifacts" (folder ++ "/faiss/" ++ toString jobId ++ "_combined.bin")),
          some (blobLocator "artifacts" (folder ++ "/chunks/" ++ toString jobId ++ "_combined.json")),
          true⟩, ?_, ?_, ?_, rfl, rfl, rfl⟩
      · simp [_create_aggregated_artifacts, hj, hc]
      · simp [log_job_activity, Session.addLog, Session.addDoc, Session.commit, h1, h2]
      · simp [log_job_activity, Session.addLog, Session.addDoc, Session.commit, h1, h2]

theorem createdJobSession_state (db0 : Db) (jobName : String) (fileCount : Nat) :
    (createdJobSession ⟨db0, [], [], []⟩ jobName fileCount).committed.jobs
      = db0.jobs ++ [createdJobRow db0 jobName fileCount]
    ∧ (createdJobSession ⟨db0, [], [], []⟩ jobName fileCount).committed.docs = db0.docs
    ∧ (createdJobSession ⟨db0, [], [], []⟩ jobName fileCount).pendingJobs = []
    ∧ (createdJobSession ⟨db0, [], [], []⟩ jobName fileCount).pendingDocs = [] := by
  refine ⟨?_, ?_, rfl, rfl⟩ <;>
    simp [createdJobSession, log_job_activity, Session.addJob, Session.addLog, Session.commit]

theorem find?_freshJob (db0 : Db) (j : JobRow) (hid : j.id = nextJobId db0) :
    (db0.jobs ++ [j]).find? (fun r => r.id = nextJobId db0) = some j := by
  rw [find?_append_of_none _ _ _ ?_]
  · simp [List.find?, hid]
  · intro a ha
    exact decide_eq_false (Nat.ne_of_lt (jobId_lt_nextJobId db0 a ha))

theorem upload_files_fail_spec (db0 : Db) (jobName : String)
    (good : List FileSpec) (f : FileSpec) (rest : List FileSpec) (e : String)
    (aggFaiss : Except String Unit)
    (hg : ∀ g ∈ good, exceptFailed (perFileStep (nextJobId db0)
      ("job-" ++ toString (nextJobId db0) ++ "-" ++ jobName) g) = false)
    (hf : perFileStep (nextJobId db0) ("job-" ++ toString (nextJobId db0) ++ "-" ++ jobName) f
      = Except.error e) :
    ∃ e' db', upload_files db0 jobName (good ++ f :: rest) aggFaiss = Except.error (e', db')
      ∧ db'.docs = db0.docs ++ perFileDocs (nextJobId db0)
          ("job-" ++ toString (nextJobId db0) ++ "-" ++ jobName) good
      ∧ db'.jobs = db0.jobs ++ [createdJobRow db0 jobName (good ++ f :: rest).length]
      ∧ jobStatus db' (nextJobId db0) = some "pending" := by
  have hne : (good ++ f :: rest).isEmpty = false := by
    cases good <;> rfl
  obtain ⟨hcjobs, hcdocs, hcpj, hcpd⟩ :=
    createdJobSession_state db0 jobName (good ++ f :: rest).length
  obtain ⟨e', s', heq, hdocs, hjobs⟩ := process_files_fail_spec (nextJobId db0)
    ("job-" ++ toString (nextJobId db0) ++ "-" ++ jobName) good f rest e ([], [], 0)
    (createdJobSession ⟨db0, [], [], []⟩ jobName (good ++ f :: rest).length)
    hcpj hcpd hg hf
  refine ⟨e', s'.committed, ?_, ?_, ?_, ?_⟩
  · simp only [upload_files, hne, Bool.false_eq_true, if_false, _create_job, createdJobRow]
    simp only [heq]
  · rw [hdocs, hcdocs]
  · rw [hjobs, hcjobs]
  · unfold jobStatus
    rw [hjobs, hcjobs, find?_freshJob db0 _ rfl]
    rfl

theorem upload_files_ok_spec (db0 : Db) (jobName : String) (files : List FileSpec)
    (hne : files ≠ [])
    (hg : ∀ g ∈ files, exceptFailed (perFileStep (nextJobId db0)
      ("job-" ++ toString (nextJobId db0) ++ "-" ++ jobName) g) = false) :
    ∃ job db' aggDoc, upload_files db0 jobName files (Except.ok ()) = Except.ok (job, db')
      ∧ job.id = nextJobId db0
      ∧ job.job_name = jobName
      ∧ job.document_count = files.length
      ∧ job.status = "completed"
      ∧ job.completed_at_set = true
      ∧ db'.docs = db0.docs ++ perFileDocs (nextJobId db0)
          ("job-" ++ toString (nextJobId db0) ++ "-" ++ jobName) files ++ [aggDoc]
      ∧ aggDoc.is_aggregated = true := by
  have hne' : files.isEmpty = false := by
    cases files with
    | nil => exact absurd rfl hne
    | cons a t => rfl
  obtain ⟨hcjobs, hcdocs, hcpj, hcpd⟩ := createdJobSession_state db0 jobName files.length
  obtain ⟨aj, ac, s', heq, hdocs, hjobs, hpj, hpd⟩ := process_files_ok_spec (nextJobId db0)
    ("job-" ++ toString (nextJobId db0) ++ "-" ++ jobName) files ([], [], 0)
    (createdJobSession ⟨db0, [], [], []⟩ jobName files.length)
    hcpj hcpd hg
  obtain ⟨s3, aggDoc, haeq, hajobs, hadocs, haflag, hapj, hapd⟩ :=
    create_aggregated_ok_spec (nextJobId db0)
      ("job-" ++ toString (nextJobId db0) ++ "-" ++ jobName) aj ac s' hpj hpd
  set jrow := createdJobRow db0 jobName files.length with hjrow
  have hs3jobs : s3.committed.jobs = db0.jobs ++ [jrow] := by
    rw [hajobs, hjobs, hcjobs]
  have hupd : ∀ a ∈ List.map (fun j => if j.id = nextJobId db0 then
      finalizeUpdate (0 + files.length) j else j) db0.jobs,
      (fun r => decide (r.id = nextJobId db0)) a = false := by
    intro a ha
    rcases List.mem_map.mp ha with ⟨j, hj, rfl⟩
    have hlt := Nat.ne_of_lt (jobId_lt_nextJobId db0 j hj)
    rw [if_neg hlt]
    exact decide_eq_false hlt
  have hfin : (_finalize_job (nextJobId db0) (0 + files.length) s3).committed.jobs
      = List.map (fun j => if j.id = nextJobId db0 then
          finalizeUpdate (0 + files.length) j else j) db0.jobs
        ++ [finalizeUpdate (0 + files.length) jrow] := by
    simp only [_finalize_job, log_job_activity, Session.addLog, Session.commit, updateJob,
      hs3jobs, hapj]
    simp [List.map_append, hjrow, createdJobRow]
  have hfind : ((_finalize_job (nextJobId db0) (0 + files.length) s3).committed.jobs).find?
      (fun r => r.id = nextJobId db0)
      = some (finalizeUpdate (0 + files.length) jrow) := by
    rw [hfin]
    rw [find?_append_of_none _ _ _ hupd]
    simp [List.find?, hjrow, createdJobRow, finalizeUpdate]
  refine ⟨finalizeUpdate (0 + files.length) jrow,
    (_finalize_job (nextJobId db0) (0 + files.length) s3).committed, aggDoc, ?_, ?_, ?_, ?_, ?_,
    ?_, ?_, haflag⟩
  · simp only [upload_files, hne', Bool.false_eq_true, if_false, _create_job, createdJobRow]
    simp only [heq, haeq, hfind]
    rfl
  · simp [hjrow, createdJobRow, finalizeUpdate]
  · simp [hjrow, createdJobRow, finalizeUpdate]
  · simp [finalizeUpdate]
  · simp [finalizeUpdate]
  · simp [finalizeUpdate]
  · have hfd : (_finalize_job (nextJobId db0) (0 + files.length) s3).committed.docs
        = s3.committed.docs := by
      simp [_finalize_job, log_job_activity, Session.addLog, Session.commit, updateJob, hapd]
    rw [hfd, hadocs, hdocs, hcdocs, List.append_assoc]

/-! ### Fixtures and result views for the upload claims -/

/-- A small text file that parses successfully. -/
def okFileA : FileSpec :=
  ⟨"a.txt", [104, 105], "text/plain", Except.ok "hello world".data, "JL", FaissStep.ok⟩

/-- A file whose parse raises. -/
def badFileB : FileSpec :=
  ⟨"b.txt", [104], "text/plain", Except.error "boom", "JL", FaissStep.ok⟩

/-- Another file that parses successfully. -/
def okFileC : FileSpec :=
  ⟨"c.txt", [104], "text/plain", Except.ok "more text".data, "JL", FaissStep.ok⟩

/-- A zero-byte file: reading it yields empty bytes and empty text. -/
def emptyFile : FileSpec :=
  ⟨"empty.txt", [], "text/plain", Except.ok [], "JL", FaissStep.ok⟩

/-- A whitespace-only file: non-empty bytes, but its text splits into zero
words. -/
def zeroChunkFile : FileSpec :=
  ⟨"blank.txt", [32, 32], "text/plain", Except.ok "  ".data, "JL", FaissStep.ok⟩

/-- A file whose per-file FAISS index build raises. -/
def faissFailFile : FileSpec :=
  ⟨"f.txt", [104], "text/plain", Except.ok "some words".data, "JL", FaissStep.failBuild⟩

/-- View of a failed upload: the committed Document row count and the status
of job 1. -/
def uploadErrView (r : Except (String × Db) (JobRow × Db)) : Option (Nat × Option String) :=
  match r with
  | Except.error p => some (p.2.docs.length, jobStatus p.2 1)
  | Except.ok _ => none

/-- View of a per-file step outcome: `none` when it raised, otherwise the
FAISS and chunks blob paths of the produced Document row. -/
def perFileBlobsView (r : Except String PerFileResult) :
    Option (Option String × Option String) :=
  match r with
  | Except.ok r => some (r.doc.faiss_index_blob_path, r.doc.chunks_blob_path)
  | Except.error _ => none

/-! ### Claim C1: upload all-or-nothing -/

/-- C1 counterexample: for a three-file batch whose second file fails to
parse, `upload_files` surfaces the fatal error and the job is not completed,
but one Document row — the first file's, committed before the failure —
still exists, refuting "no Document row exists for any file of the batch". -/
theorem upload_not_all_or_nothing_cex :
    uploadErrView (upload_files ⟨[], [], []⟩ "demo" [okFileA, badFileB, okFileC] (Except.ok ()))
      = some (1, some "pending") := by
  decide

/-- C1 (amended): when a file of the batch fails, the upload aborts with a
fatal error, no Document row exists for the failing file or any later file,
and the Job is not marked `completed`; but the Document rows of earlier,
successfully processed files were committed one by one
(`_create_document_record` commits per file) and persist. -/
theorem upload_abort_keeps_earlier_documents (db0 : Db) (jobName : String)
    (good : List FileSpec) (f : FileSpec) (rest : List FileSpec) (e : String)
    (aggFaiss : Except String Unit)
    (hg : ∀ g ∈ good, exceptFailed (perFileStep (nextJobId db0)
      ("job-" ++ toString (nextJobId db0) ++ "-" ++ jobName) g) = false)
    (hf : perFileStep (nextJobId db0) ("job-" ++ toString (nextJobId db0) ++ "-" ++ jobName) f
      = Except.error e) :
    ∃ e' db', upload_files db0 jobName (good ++ f :: rest) aggFaiss = Except.error (e', db')
      ∧ db'.docs = db0.docs ++ perFileDocs (nextJobId db0)
          ("job-" ++ toString (nextJobId db0) ++ "-" ++ jobName) good
      ∧ (perFileDocs (nextJobId db0)
          ("job-" ++ toString (nextJobId db0) ++ "-" ++ jobName) good).length = good.length
      ∧ jobStatus db' (nextJobId db0) ≠ some "completed" := by
  obtain ⟨e', db', heq, hdocs, hjobs, hstatus⟩ :=
    upload_files_fail_spec db0 jobName good f rest e aggFaiss hg hf
  refine ⟨e', db', heq, hdocs, perFileDocs_length _ _ good hg, ?_⟩
  rw [hstatus]
  intro hcontra
  exact absurd (Option.some.inj hcontra) (by decide)

/-- Witness for `upload_abort_keeps_earlier_documents` at a concrete batch. -/
theorem upload_abort_keeps_earlier_documents_witness :
    ∃ e' db', upload_files ⟨[], [], []⟩ "demo" ([okFileA] ++ badFileB :: [okFileC]) (Except.ok ())
        = Except.error (e', db')
      ∧ db'.docs = (⟨[], [], []⟩ : Db).docs ++ perFileDocs (nextJobId ⟨[], [], []⟩)
          ("job-" ++ toString (nextJobId ⟨[], [], []⟩) ++ "-" ++ "demo") [okFileA]
      ∧ (perFileDocs (nextJobId ⟨[], [], []⟩)
          ("job-" ++ toString (nextJobId ⟨[], [], []⟩) ++ "-" ++ "demo") [okFileA]).length
          = [okFileA].length
      ∧ jobStatus db' (nextJobId ⟨[], [], []⟩) ≠ some "completed" :=
  upload_abort_keeps_earlier_documents ⟨[], [], []⟩ "demo" [okFileA] badFileB [okFileC] "boom"
    (Except.ok ()) (by decide) rfl

/-! ### Claim C2: per-file index failures propagate -/

/-- C2 counterexample: a file whose FAISS index build raises is processed
without error — the failure is caught inside `_upload_artifacts` and only
logged (upload.py lines 230–231), and the file's Document row is created
with null index/chunks paths.  The claimed propagation does not happen. -/
theorem per_file_faiss_failure_not_fatal_cex :
    perFileBlobsView (perFileStep 1 "job-1-demo" faissFailFile) = some (none, none) := by
  decide

/-- C2 (amended): a failure while building the per-file vector index or
uploading its artifacts is caught locally inside `_upload_artifacts` and
merely logged — the per-file step still succeeds; the Document row's chunks
path is null, and its index path is null too unless only the chunk-list
upload failed after the index blob was stored.  (Only the JSONL upload, and
the aggregated index build, sit outside the try/except and propagate.) -/
theorem per_file_faiss_failure_caught (jobId : Nat) (folder : String) (f : FileSpec)
    (text : List Char) (hc : f.content ≠ []) (hp : f.parseResult = Except.ok text)
    (hfs : f.faissStep ≠ FaissStep.ok) :
    perFileStep jobId folder f = Except.ok (perFileOk jobId folder f text)
    ∧ (perFileOk jobId folder f text).doc.chunks_blob_path = none
    ∧ (f.faissStep = FaissStep.failChunksUpload
        ∨ (perFileOk jobId folder f text).doc.faiss_index_blob_path = none) := by
  refine ⟨?_, ?_, ?_⟩
  · simp only [perFileStep]
    rw [if_neg hc, hp]
  · cases hfss : f.faissStep with
    | ok => exact absurd hfss hfs
    | failBuild =>
      by_cases hz : chunk_text text 1000 = [] <;>
        simp [perFileOk, perFileFaissChunksBlobs, hz, hfss]
    | failFaissUpload =>
      by_cases hz : chunk_text text 1000 = [] <;>
        simp [perFileOk, perFileFaissChunksBlobs, hz, hfss]
    | failChunksUpload =>
      by_cases hz : chunk_text text 1000 = [] <;>
        simp [perFileOk, perFileFaissChunksBlobs, hz, hfss]
  · cases hfss : f.faissStep with
    | ok => exact absurd hfss hfs
    | failBuild =>
      refine Or.inr ?_
      by_cases hz : chunk_text text 1000 = [] <;>
        simp [perFileOk, perFileFaissChunksBlobs, hz, hfss]
    | failFaissUpload =>
      refine Or.inr ?_
      by_cases hz : chunk_text text 1000 = [] <;>
        simp [perFileOk, perFileFaissChunksBlobs, hz, hfss]
    | failChunksUpload => exact Or.inl rfl

/-- Witness for `per_file_faiss_failure_caught` at a concrete file. -/
theorem per_file_faiss_failure_caught_witness :
    perFileStep 1 "job-1-demo" faissFailFile
      = Except.ok (perFileOk 1 "job-1-demo" faissFailFile "some words".data)
    ∧ (perFileOk 1 "job-1-demo" faissFailFile "some words".data).doc.chunks_blob_path = none
    ∧ (faissFailFile.faissStep = FaissStep.failChunksUpload
        ∨ (perFileOk 1 "job-1-demo" faissFailFile "some words".data).doc.faiss_index_blob_path
            = none) :=
  per_file_faiss_failure_caught 1 "job-1-demo" faissFailFile "some words".data
    (by decide) rfl (by decide)

/-! ### Claim C3: job status on unrecoverable failure -/

/-- C3 counterexample: a failing single-file batch leaves the job `pending`,
not `failed` — the claimed short-circuit to `failed` never happens (the
except path of `_process_files` only rolls back and logs, upload.py lines
170–177). -/
theorem upload_abort_status_not_failed_cex :
    uploadErrView (upload_files ⟨[], [], []⟩ "solo" [badFileB] (Except.ok ()))
      = some (0, some "pending") := by
  decide

/-- C3 (amended): when the per-file loop raises unrecoverably the error
surfaces to the caller, but the Job's status is never set to `failed`: the
row remains `pending`. -/
theorem upload_abort_job_stays_pending (db0 : Db) (jobName : String)
    (good : List FileSpec) (f : FileSpec) (rest : List FileSpec) (e : String)
    (aggFaiss : Except String Unit)
    (hg : ∀ g ∈ good, exceptFailed (perFileStep (nextJobId db0)
      ("job-" ++ toString (nextJobId db0) ++ "-" ++ jobName) g) = false)
    (hf : perFileStep (nextJobId db0) ("job-" ++ toString (nextJobId db0) ++ "-" ++ jobName) f
      = Except.error e) :
    ∃ e' db', upload_files db0 jobName (good ++ f :: rest) aggFaiss = Except.error (e', db')
      ∧ jobStatus db' (nextJobId db0) = some "pending" := by
  obtain ⟨e', db', heq, _, _, hstatus⟩ :=
    upload_files_fail_spec db0 jobName good f rest e aggFaiss hg hf
  exact ⟨e', db', heq, hstatus⟩

/-- Witness for `upload_abort_job_stays_pending` at a concrete batch. -/
theorem upload_abort_job_stays_pending_witness :
    ∃ e' db', upload_files ⟨[], [], []⟩ "solo" ([] ++ badFileB :: []) (Except.ok ())
        = Except.error (e', db')
      ∧ jobStatus db' (nextJobId ⟨[], [], []⟩) = some "pending" :=
  upload_abort_job_stays_pending ⟨[], [], []⟩ "solo" [] badFileB [] "boom" (Except.ok ())
    (by simp) rfl

/-! ### Claim C4: zero-chunk files -/

/-- C4 counterexample: a zero-byte text file — whose parse, had it run, would
yield zero chunks (`chunk_text [] = []`) — does not succeed: the upload of
the original bytes rejects empty data with `ValueError` (blob_storage.py
lines 47–49), the whole batch aborts, and no Document row is created. -/
theorem upload_empty_file_fails_cex :
    emptyFile.parseResult = Except.ok [] ∧ chunk_text [] 1000 = []
    ∧ uploadErrView (upload_files ⟨[], [], []⟩ "empty" [emptyFile] (Except.ok ()))
      = some (0, some "pending") :=
  ⟨rfl, rfl, by decide⟩

/-- C4 (amended): a file with non-empty raw content whose parse yields zero
chunks still succeeds: a non-aggregated Document row with null artifact
paths is created for it, it counts toward `document_count`, and it
contributes nothing to the aggregates (its jsonl contribution is `none` and
its chunk contribution is `[]`).  A zero-byte file, by contrast, fails the
whole batch at the original blob upload — see the counterexample. -/
theorem upload_zero_chunk_file_succeeds
    (db0 : Db) (jobName : String) (files : List FileSpec)
    (hne : files ≠ [])
    (hg : ∀ g ∈ files, exceptFailed (perFileStep (nextJobId db0)
      ("job-" ++ toString (nextJobId db0) ++ "-" ++ jobName) g) = false) :
    ∃ job db' aggDoc, upload_files db0 jobName files (Except.ok ()) = Except.ok (job, db')
      ∧ job.document_count = files.length
      ∧ job.status = "completed"
      ∧ db'.docs = db0.docs ++ perFileDocs (nextJobId db0)
          ("job-" ++ toString (nextJobId db0) ++ "-" ++ jobName) files ++ [aggDoc]
      ∧ aggDoc.is_aggregated = true
      ∧ ∀ f ∈ files, ∀ text, f.parseResult = Except.ok text → splitWs text = [] →
          perFileStep (nextJobId db0) ("job-" ++ toString (nextJobId db0) ++ "-" ++ jobName) f
            = Except.ok ⟨none, [],
                ⟨nextJobId db0,
                 blobLocator "documents" (("job-" ++ toString (nextJobId db0) ++ "-" ++ jobName)
                   ++ "/" ++ f.filename),
                 f.content_type, none, none, none, false⟩⟩ := by
  obtain ⟨job, db', aggDoc, heq, _, _, hcnt, hstatus, _, hdocs, hflag⟩ :=
    upload_files_ok_spec db0 jobName files hne hg
  refine ⟨job, db', aggDoc, heq, hcnt, hstatus, hdocs, hflag, ?_⟩
  intro f hf text hpt hsplit
  have hcne : f.content ≠ [] := by
    intro hceq
    have hx := hg f hf
    simp [perFileStep, hceq, exceptFailed] at hx
  have hz : chunk_text text 1000 = [] := by
    simp [chunk_text, hsplit, chunksOf_nil]
  simp only [perFileStep]
  rw [if_neg hcne, hpt]
  simp [perFileOk, hz, perFileFaissChunksBlobs]

/-- Witness for `upload_zero_chunk_file_succeeds`: a batch containing a
normal file and a whitespace-only file. -/
theorem upload_zero_chunk_file_succeeds_witness :
    ∃ job db' aggDoc, upload_files ⟨[], [], []⟩ "mix" [okFileA, zeroChunkFile] (Except.ok ())
        = Except.ok (job, db')
      ∧ job.document_count = [okFileA, zeroChunkFile].length
      ∧ job.status = "completed"
      ∧ db'.docs = (⟨[], [], []⟩ : Db).docs ++ perFileDocs (nextJobId ⟨[], [], []⟩)
          ("job-" ++ toString (nextJobId ⟨[], [], []⟩) ++ "-" ++ "mix") [okFileA, zeroChunkFile]
          ++ [aggDoc]
      ∧ aggDoc.is_aggregated = true
      ∧ ∀ f ∈ [okFileA, zeroChunkFile], ∀ text, f.parseResult = Except.ok text →
          splitWs text = [] →
          perFileStep (nextJobId ⟨[], [], []⟩)
              ("job-" ++ toString (nextJobId ⟨[], [], []⟩) ++ "-" ++ "mix") f
            = Except.ok ⟨none, [],
                ⟨nextJobId ⟨[], [], []⟩,
                 blobLocator "documents"
                   (("job-" ++ toString (nextJobId ⟨[], [], []⟩) ++ "-" ++ "mix")
                     ++ "/" ++ f.filename),
                 f.content_type, none, none, none, false⟩⟩ :=
  upload_zero_chunk_file_succeeds ⟨[], [], []⟩ "mix" [okFileA, zeroChunkFile]
    (by simp) (by decide)

/-! ### FinetuneService.check_finetune_status (finetune.py) -/

/-- Row of the `finetuned_models` table (models/finetuned_model.py). -/
structure FineTunedModelRow where
  id : Nat
  job_id : Nat
  openai_job_id : Option String
  openai_model_id : Option String
deriving DecidableEq

/-- Provider response for a fine-tune status query
(`client.fine_tuning.jobs.retrieve`). -/
structure FineTuneStatusResp where
  status : String
  fine_tuned_model : Option String

/-- The dictionary returned by `check_finetune_status`; the `not_run` answer
carries no provider ids. -/
structure FineTuneStatusOut where
  job_id : Nat
  openai_job_id : Option String
  status : String
  fine_tuned_model_id : Option String
deriving DecidableEq

/-- Tables touched by status polling, each in primary-key (insertion) order —
the order in which SQLite returns rows to a query with no ORDER BY. -/
structure FtDb where
  jobs : List JobRow
  ftModels : List FineTunedModelRow
deriving DecidableEq

/-- Embedding of `FinetuneService.check_finetune_status` (finetune.py lines
106–148).  `retrieve` is the provider's status endpoint.  The FineTunedModel
row is selected by `.filter(job_id == ...).first()` with no `order_by`
(line 127): the first matching row in table order.  `none` models the 404
`HTTPException` when the job does not exist; activity-log rows are appended
to `logs`. -/
def check_finetune_status (retrieve : String → FineTuneStatusResp) (db : FtDb)
    (logs : List LogRow) (jobId : Nat) :
    Option (FtDb × List LogRow × FineTuneStatusOut) :=
  match db.jobs.find? (fun j => j.id = jobId) with
  | none => none
  | some job =>
    match db.ftModels.find? (fun m => m.job_id = jobId) with
    | none => some (db, logs, ⟨jobId, none, "not_run", none⟩)
    | some m =>
      match m.openai_job_id with
      | none => some (db, logs, ⟨jobId, none, "not_run", none⟩)
      | some oid =>
        let resp := retrieve oid
        let newStatus := resp.status
        let db1 : FtDb :=
          if job.status ≠ newStatus then
            ⟨db.jobs.map (fun j => if j.id = jobId then { j with status := newStatus } else j),
             db.ftModels⟩
          else db
        let logs1 :=
          if job.status ≠ newStatus then
            logs ++ [⟨jobId, "finetune_" ++ newStatus, "Finetune job status updated"⟩]
          else logs
        let upd := newStatus = "succeeded"
          ∧ (m.openai_model_id = none ∨ m.openai_model_id ≠ resp.fine_tuned_model)
        let db2 : FtDb :=
          if upd then
            ⟨db1.jobs,
             db1.ftModels.map (fun r =>
               if r.id = m.id then { r with openai_model_id := resp.fine_tuned_model } else r)⟩
          else db1
        let logs2 :=
          if upd then logs1 ++ [⟨jobId, "finetune_succeeded", "Finetune job succeeded"⟩]
          else logs1
        some (db2, logs2, ⟨jobId, some oid, newStatus, resp.fine_tuned_model⟩)

/-- First match of `find?` in a table sorted strictly by `id` is the match of
least id. -/
theorem find?_sorted_min_id (p : FineTunedModelRow → Bool) :
    ∀ (l : List FineTunedModelRow) (m : FineTunedModelRow),
      l.Pairwise (fun a b => a.id < b.id) → l.find? p = some m →
      ∀ m' ∈ l, p m' = true → m.id ≤ m'.id := by
  intro l
  induction l with
  | nil =>
    intro m _ hfind
    simp at hfind
  | cons a l ih =>
    intro m hsort hfind m' hm' hp'
    rw [List.pairwise_cons] at hsort
    cases hp : p a with
    | true =>
      rw [List.find?_cons_of_pos _ hp] at hfind
      cases hfind
      rcases List.mem_cons.mp hm' with h | h
      · subst h
        exact le_refl _
      · exact Nat.le_of_lt (hsort.1 m' h)
    | false =>
      rw [List.find?_cons_of_neg _ (by simp [hp])] at hfind
      rcases List.mem_cons.mp hm' with h | h
      · subst h
        rw [hp] at hp'
        simp at hp'
      · exact ih m hsort.2 hfind m' h hp'

/-- Fixture: one job with two FineTunedModel rows (ids 1 and 2). -/
def ftDbTwo : FtDb :=
  ⟨[⟨1, "j", "finetune pending", "process_document", 1, 0, false⟩],
   [⟨1, 1, some "ftjob-A", none⟩, ⟨2, 1, some "ftjob-B", none⟩]⟩

/-- Fixture provider: the older fine-tune job is still running, the newer one
has succeeded. -/
def ftRetrieve : String → FineTuneStatusResp :=
  fun oid => if oid = "ftjob-A" then ⟨"running", none⟩ else ⟨"succeeded", some "model-B"⟩

/-- C5 counterexample: with two FineTunedModel rows for the job,
`check_finetune_status` polls the FIRST row in table order (id 1,
`ftjob-A`, reporting `running`) — not the most recent one by id (id 2,
`ftjob-B`, whose status would be `succeeded`). -/
theorem check_finetune_status_uses_first_row_cex :
    (check_finetune_status ftRetrieve ftDbTwo [] 1).map
        (fun r => (r.2.2.openai_job_id, r.2.2.status))
      = some (some "ftjob-A", "running")
    ∧ (ftDbTwo.ftModels.getLast?).map (fun m => m.openai_job_id)
      = some (some "ftjob-B")
    ∧ (ftRetrieve "ftjob-B").status = "succeeded" :=
  ⟨by decide, by decide, by decide⟩

/-- C5 (amended): the status-polling operation selects the first
FineTunedModel row for the job in table (primary-key) order — with ids
assigned in increasing insertion order this is the LOWEST id, not the most
recent — and polls that row's external job id. -/
theorem check_finetune_status_selects_lowest_id (retrieve : String → FineTuneStatusResp)
    (db : FtDb) (logs : List LogRow) (jobId : Nat) (job : JobRow)
    (m : FineTunedModelRow) (oid : String)
    (hsort : db.ftModels.Pairwise (fun a b => a.id < b.id))
    (hjob : db.jobs.find? (fun j => j.id = jobId) = some job)
    (hfind : db.ftModels.find? (fun r => r.job_id = jobId) = some m)
    (hoid : m.openai_job_id = some oid) :
    (∃ db' logs' out, check_finetune_status retrieve db logs jobId = some (db', logs', out)
      ∧ out.openai_job_id = some oid
      ∧ out.status = (retrieve oid).status)
    ∧ ∀ m' ∈ db.ftModels, m'.job_id = jobId → m.id ≤ m'.id := by
  constructor
  · simp only [check_finetune_status, hjob, hfind, hoid]
    exact ⟨_, _, _, rfl, rfl, rfl⟩
  · intro m' hm' hjid
    exact find?_sorted_min_id _ db.ftModels m hsort hfind m' hm' (by simp [hjid])

/-- Witness for `check_finetune_status_selects_lowest_id` at the two-row
fixture. -/
theorem check_finetune_status_selects_lowest_id_witness :
    (∃ db' logs' out, check_finetune_status ftRetrieve ftDbTwo [] 1 = some (db', logs', out)
      ∧ out.openai_job_id = some "ftjob-A"
      ∧ out.status = (ftRetrieve "ftjob-A").status)
    ∧ ∀ m' ∈ ftDbTwo.ftModels, m'.job_id = 1 → (1 : Nat) ≤ m'.id :=
  check_finetune_status_selects_lowest_id ftRetrieve ftDbTwo [] 1
    ⟨1, "j", "finetune pending", "process_document", 1, 0, false⟩
    ⟨1, 1, some "ftjob-A", none⟩ "ftjob-A"
    (by simp [ftDbTwo, List.pairwise_cons]) rfl rfl rfl
